import Mathlib

/-!
Verification of the ip_range_calculator module (src/get_ip_range.py).

The module computes derived properties of IPv4 CIDR blocks on top of the
CPython standard library module ipaddress.  The embedding below translates,
into Lean:

* the Python string primitives the code relies on (split, partition, strip,
  the int constructor, decimal/hex/binary rendering of integers);
* the relevant parts of CPython ipaddress (version 3.11): IPv4/IPv6 address
  and network parsing, netmask handling, derived attributes (netmask,
  hostmask, broadcast_address, num_addresses, hosts) and the classification
  flags;
* the three tool functions of get_ip_range.py: get_ip_range,
  get_ip_range_summary and validate_ip.

Python strings are modelled as lists of characters.  Machine integers are
Nat (all the arithmetic in the source is on unbounded Python ints).
Functions that can raise ValueError are modelled with Option/Except, a
none/error result standing for a raised exception.  Exception message texts
are not modelled.
-/

/-! ## Python string primitives -/

/-- Python str.split(sep) for a one character separator: splits at every
occurrence of the separator, keeping empty segments; the result is never
empty. -/
def pySplit (c : Char) : List Char → List (List Char)
  | [] => [[]]
  | x :: xs =>
    match pySplit c xs with
    | [] => [[x]]
    | h :: t => if x = c then [] :: h :: t else (x :: h) :: t

/-- Python str.partition(sep) for a one character separator: the part before
the first occurrence, whether the separator occurred, and the part after. -/
def pyPartition (c : Char) : List Char → List Char × Bool × List Char
  | [] => ([], false, [])
  | x :: xs =>
    if x = c then ([], true, xs)
    else
      let r := pyPartition c xs
      (x :: r.1, r.2.1, r.2.2)

/-- ASCII whitespace, the characters Python str.strip removes that can occur
in our inputs. -/
def isPyWs (c : Char) : Bool :=
  c = ' ' || c = '\t' || c = '\n' || c = '\x0d' || c = '\x0b' || c = '\x0c'

/-- Python str.strip(): remove whitespace from both ends. -/
def pyStrip (l : List Char) : List Char :=
  ((l.dropWhile isPyWs).reverse.dropWhile isPyWs).reverse

/-- The check `s.isascii() and s.isdigit()` applied to a string, which is how
ipaddress guards numeric fields: nonempty and all ASCII decimal digits. -/
def pyIsAsciiDigits (l : List Char) : Bool :=
  !l.isEmpty && l.all Char.isDigit

/-- Value of an ASCII decimal digit. -/
def digitVal (c : Char) : Nat := c.toNat - 48

/-- Value of a string of decimal digits (used after a digits-only check). -/
def digitsVal (l : List Char) : Nat :=
  l.foldl (fun a c => 10 * a + digitVal c) 0

/-- Decimal digits of a positive number, most significant first; fuel-based
so that it is structurally recursive and kernel-reducible. -/
def natReprAux : Nat → Nat → List Char
  | 0, _ => []
  | fuel + 1, n => if n = 0 then [] else natReprAux fuel (n / 10) ++ [Char.ofNat (48 + n % 10)]

/-- Python str(n) for a nonnegative int n. -/
def pyNatRepr (n : Nat) : List Char :=
  if n = 0 then ['0'] else natReprAux (n + 1) n

/-- Lowercase hex digit characters of a positive number, most significant
first (Python '%x' formatting), fuel-based. -/
def hexReprAux : Nat → Nat → List Char
  | 0, _ => []
  | fuel + 1, n =>
    if n = 0 then []
    else hexReprAux fuel (n / 16) ++
      [if n % 16 < 10 then Char.ofNat (48 + n % 16) else Char.ofNat (87 + n % 16)]

/-- Python hex formatting: the string produced by the percent-x conversion. -/
def hexRepr (n : Nat) : List Char :=
  if n = 0 then ['0'] else hexReprAux (n + 1) n

/-- Binary digits of a number (Python bin rendering without prefix). -/
def binReprAux : Nat → Nat → List Char
  | 0, _ => []
  | fuel + 1, n => if n = 0 then [] else binReprAux fuel (n / 2) ++ [Char.ofNat (48 + n % 2)]

/-- Python format(n, 'b') for a nonnegative int. -/
def binRepr (n : Nat) : List Char :=
  if n = 0 then ['0'] else binReprAux (n + 1) n

/-- Left-pad a list of characters with a filler up to a given width. -/
def padLeft (c : Char) (w : Nat) (l : List Char) : List Char :=
  List.replicate (w - l.length) c ++ l

/-- Python format(n, '08b') for an int: width 8, zero padded, sign included
in the width for negative values. -/
def fmt08b (n : Int) : List Char :=
  if n < 0 then '-' :: padLeft '0' 7 (binRepr n.natAbs)
  else padLeft '0' 8 (binRepr n.toNat)

/-- Body of the CPython int() decimal grammar after the first digit:
digits with single underscores permitted strictly between digits (an
underscore must be followed by a digit; it is preceded by a digit by
construction). -/
def digitsUGo : Nat → List Char → Option Nat
  | acc, [] => some acc
  | acc, [c] => if c.isDigit then some (10 * acc + digitVal c) else none
  | acc, c :: d :: rest =>
    if c.isDigit then digitsUGo (10 * acc + digitVal c) (d :: rest)
    else if c = '_' then
      if d.isDigit then digitsUGo (10 * acc + digitVal d) rest else none
    else none

/-- CPython int() decimal digit sequence: nonempty, starts with a digit,
single underscores only between digits. -/
def digitsU : List Char → Option Nat
  | [] => none
  | c :: rest => if c.isDigit then digitsUGo (digitVal c) rest else none

/-- CPython int(s) with base 10 on a str: strip whitespace, optional sign,
then the underscore-tolerant digit sequence; none models ValueError. -/
def pyIntParse (s : List Char) : Option Int :=
  match pyStrip s with
  | [] => none
  | c :: rest =>
    if c = '+' then (digitsU rest).map Int.ofNat
    else if c = '-' then (digitsU rest).map (fun n => -(Int.ofNat n))
    else (digitsU (c :: rest)).map Int.ofNat

/-- Elementwise slicing with a step (Python l[::step] for step at least 1),
fuel-based on the length of the list. -/
def sliceStepAux {α : Type} : Nat → Nat → List α → List α
  | 0, _, _ => []
  | _, _, [] => []
  | fuel + 1, s, x :: xs => x :: sliceStepAux fuel s (xs.drop (s - 1))

/-- Python l[::step] for a positive step. -/
def sliceStep {α : Type} (l : List α) (s : Nat) : List α :=
  sliceStepAux l.length s l

/-- Python l[-k:]: the last k elements (the whole list when shorter). -/
def lastSlice {α : Type} (k : Nat) (l : List α) : List α :=
  l.drop (l.length - k)

/-- Shorthand turning a Lean string literal into the character list model. -/
def sLit (s : String) : List Char := s.toList

/-! ## CPython ipaddress, IPv4 side

Transcribed from /usr/lib/python3.11/ipaddress.py.  A none result models a
raised AddressValueError / NetmaskValueError / ValueError. -/

/-- ipaddress._parse_octet: a decimal octet, ASCII digits only, at most three
characters, no leading zeros, value at most 255. -/
def parseOctet (s : List Char) : Option Nat :=
  if s.isEmpty then none
  else if !pyIsAsciiDigits s then none
  else if s.length > 3 then none
  else if s ≠ ['0'] ∧ s.head? = some '0' then none
  else if digitsVal s > 255 then none
  else some (digitsVal s)

/-- ipaddress._BaseV4._ip_int_from_string: four octets joined by dots,
assembled big endian. -/
def v4IntFromString (s : List Char) : Option Nat :=
  if s.isEmpty then none
  else
    match pySplit '.' s with
    | [o1, o2, o3, o4] =>
      match parseOctet o1, parseOctet o2, parseOctet o3, parseOctet o4 with
      | some a, some b, some c, some d => some (((a * 256 + b) * 256 + c) * 256 + d)
      | _, _, _, _ => none
    | _ => none

/-- ipaddress.IPv4Address constructed from a string: rejects a slash, then
parses the dotted quad. -/
def v4AddressParse (s : List Char) : Option Nat :=
  if '/' ∈ s then none else v4IntFromString s

/-- Fuel-based bit length (Python int.bit_length). -/
def bitLenAux : Nat → Nat → Nat
  | 0, _ => 0
  | fuel + 1, n => if n = 0 then 0 else bitLenAux fuel (n / 2) + 1

/-- Python n.bit_length() for a nonnegative int. -/
def bitLen (n : Nat) : Nat := bitLenAux (n + 1) n

/-- ipaddress._count_righthand_zero_bits.  The Python expression
(~number & (number - 1)).bit_length() over signed ints equals, for a positive
number, the bit length of (number - 1) minus its bits shared with number,
which is the value used here over Nat. -/
def countRighthandZeroBits (number bits : Nat) : Nat :=
  if number = 0 then bits
  else min bits (bitLen ((number - 1) - ((number - 1) &&& number)))

/-- ipaddress._IPAddressBase._ip_int_from_prefix for IPv4:
ALL_ONES xor (ALL_ONES shifted right by the prefix length). -/
def v4IpIntFromPlen (plen : Nat) : Nat :=
  (2 ^ 32 - 1) ^^^ ((2 ^ 32 - 1) >>> plen)

/-- ipaddress._IPAddressBase._prefix_from_ip_int for IPv4: recover a prefix
length from a netmask integer, rejecting masks mixing zeroes and ones. -/
def v4PlenFromIpInt (ipInt : Nat) : Option Nat :=
  let tz := countRighthandZeroBits ipInt 32
  let plen := 32 - tz
  let leadingOnes := ipInt >>> tz
  let allOnes := (1 <<< plen) - 1
  if leadingOnes ≠ allOnes then none else some plen

/-- ipaddress._IPAddressBase._prefix_from_prefix_string for IPv4: ASCII
digits only, value within 0..32. -/
def v4PlenFromNumericStr (s : List Char) : Option Nat :=
  if !pyIsAsciiDigits s then none
  else if digitsVal s ≤ 32 then some (digitsVal s) else none

/-- ipaddress._IPAddressBase._prefix_from_ip_string for IPv4: parse the
string as a dotted quad and accept it as a netmask or, after complementing,
as a hostmask. -/
def v4PlenFromIpStr (s : List Char) : Option Nat :=
  match v4IntFromString s with
  | none => none
  | some ipInt =>
    match v4PlenFromIpInt ipInt with
    | some p => some p
    | none => v4PlenFromIpInt (ipInt ^^^ (2 ^ 32 - 1))

/-- ipaddress._BaseV4._make_netmask on a string argument, returning the
prefix length: numeric form first, dotted netmask/hostmask form second. -/
def v4MakeNetmaskStr (s : List Char) : Option Nat :=
  match v4PlenFromNumericStr s with
  | some p => some p
  | none => v4PlenFromIpStr s

/-- A parsed IPv4 network: network address int and prefix length
(ipaddress.IPv4Network state). -/
structure Net4 where
  addr : Nat
  plen : Nat
deriving DecidableEq, Repr

/-- The netmask int of an IPv4 network. -/
def v4Netmask (n : Net4) : Nat := v4IpIntFromPlen n.plen

/-- ipaddress._BaseNetwork.hostmask: netmask xor ALL_ONES. -/
def v4Hostmask (n : Net4) : Nat := v4Netmask n ^^^ (2 ^ 32 - 1)

/-- ipaddress._BaseNetwork.broadcast_address: network or-ed with hostmask. -/
def v4Broadcast (n : Net4) : Nat := n.addr ||| v4Hostmask n

/-- ipaddress._BaseNetwork.num_addresses: broadcast minus network plus 1. -/
def v4NumAddresses (n : Net4) : Nat := v4Broadcast n - n.addr + 1

/-- ipaddress host enumeration for IPv4 networks: for a /31 all addresses
(IPv4Network.__init__ rebinds hosts to __iter__), for a /32 the single
address, otherwise the range strictly between network and broadcast
(_BaseNetwork.hosts). -/
def v4Hosts (n : Net4) : List Nat :=
  if n.plen = 31 then List.range' n.addr (v4Broadcast n + 1 - n.addr)
  else if n.plen = 32 then [n.addr]
  else List.range' (n.addr + 1) (v4Broadcast n - (n.addr + 1))

/-- Tail of IPv4Network.__init__ once address int and prefix length are
known: with strict false, clear any host bits to normalize. -/
def v4NetFinish (ip plen : Nat) (strict : Bool) : Option Net4 :=
  let nm := v4IpIntFromPlen plen
  if ip &&& nm ≠ ip then
    if strict then none else some ⟨ip &&& nm, plen⟩
  else some ⟨ip, plen⟩

/-- ipaddress.IPv4Network built from a string: split an optional netmask
part (at most one slash), parse the address, resolve the mask (default
prefix length 32), then normalize per the strict flag. -/
def v4NetworkParse (s : List Char) (strict : Bool) : Option Net4 :=
  match pySplit '/' s with
  | [a] =>
    match v4AddressParse a with
    | some ip => v4NetFinish ip 32 strict
    | none => none
  | [a, m] =>
    match v4AddressParse a with
    | some ip =>
      match v4MakeNetmaskStr m with
      | some plen => v4NetFinish ip plen strict
      | none => none
    | none => none
  | _ => none

/-- Membership of an address int in a concretely given network
(_BaseNetwork.__contains__: other and netmask equals network address). -/
def inNet4 (ip : Nat) (netAddr plen : Nat) : Bool :=
  ip &&& v4IpIntFromPlen plen = netAddr

/-- The iana-ipv4-special-registry list _IPv4Constants._private_networks. -/
def v4PrivateNetworks : List (Nat × Nat) :=
  [(0, 8), (0x0A000000, 8), (0x7F000000, 8), (0xA9FE0000, 16), (0xAC100000, 12),
   (0xC0000000, 29), (0xC00000AA, 31), (0xC0000200, 24), (0xC0A80000, 16),
   (0xC6120000, 15), (0xC6336400, 24), (0xCB007100, 24), (0xF0000000, 4),
   (0xFFFFFFFF, 32)]

/-- IPv4Address.is_private: membership in any private network. -/
def v4IsPrivate (ip : Nat) : Bool :=
  v4PrivateNetworks.any fun p => inNet4 ip p.1 p.2

/-- IPv4Address.is_global: not in 100.64.0.0/10 and not private. -/
def v4IsGlobal (ip : Nat) : Bool :=
  !inNet4 ip 0x64400000 10 && !v4IsPrivate ip

/-- IPv4Address.is_reserved: membership in 240.0.0.0/4. -/
def v4IsReserved (ip : Nat) : Bool := inNet4 ip 0xF0000000 4

/-- IPv4Address.is_multicast: membership in 224.0.0.0/4. -/
def v4IsMulticast (ip : Nat) : Bool := inNet4 ip 0xE0000000 4

/-- IPv4Address.is_loopback: membership in 127.0.0.0/8. -/
def v4IsLoopback (ip : Nat) : Bool := inNet4 ip 0x7F000000 8

/-- IPv4Address.is_link_local: membership in 169.254.0.0/16. -/
def v4IsLinkLocal (ip : Nat) : Bool := inNet4 ip 0xA9FE0000 16

/-- The four big endian bytes of a 32 bit address (int.to_bytes(4, big)). -/
def v4Bytes (ip : Nat) : List Nat :=
  [(ip >>> 24) % 256, (ip >>> 16) % 256, (ip >>> 8) % 256, ip % 256]

/-- ipaddress._BaseV4._string_from_ip_int: dotted decimal rendering. -/
def v4ReprS (ip : Nat) : List Char :=
  List.intercalate ['.'] ((v4Bytes ip).map pyNatRepr)

/-! ## CPython ipaddress, IPv6 side -/

/-- Membership in the _HEX_DIGITS set of ipaddress. -/
def isHexDigitChar (c : Char) : Bool :=
  c.isDigit || ('a' ≤ c && c ≤ 'f') || ('A' ≤ c && c ≤ 'F')

/-- Value of one hex digit character. -/
def hexDigitVal (c : Char) : Nat :=
  if c.isDigit then c.toNat - 48 else if 'a' ≤ c then c.toNat - 87 else c.toNat - 55

/-- Value of a hex digit string (int with base 16 after a digits check). -/
def hexVal (l : List Char) : Nat :=
  l.foldl (fun a c => 16 * a + hexDigitVal c) 0

/-- ipaddress._BaseV6._parse_hextet: hex digits only, at most four
characters, nonempty (int of an empty string raises). -/
def parseHextet (s : List Char) : Option Nat :=
  if !(s.all isHexDigitChar) then none
  else if s.length > 4 then none
  else if s.isEmpty then none
  else some (hexVal s)

/-- The hextet accumulation loop of _BaseV6._ip_int_from_string:
shift the accumulator by 16 and or in each parsed hextet. -/
def foldHextets : Nat → List (List Char) → Option Nat
  | acc, [] => some acc
  | acc, h :: t =>
    match parseHextet h with
    | some v => foldHextets ((acc <<< 16) ||| v) t
    | none => none

/-- ipaddress._BaseV6._ip_int_from_string: the full IPv6 textual grammar
with the double colon run, optional embedded IPv4 suffix, and the leading
and trailing colon rules. -/
def v6IntFromString (s : List Char) : Option Nat :=
  if s.isEmpty then none
  else
  let parts0 := pySplit ':' s
  if parts0.length < 3 then none
  else
  let withV4 : Option (List (List Char)) :=
    if '.' ∈ parts0.getLastD [] then
      (v4AddressParse (parts0.getLastD [])).map fun v4 =>
        parts0.dropLast ++ [hexRepr ((v4 >>> 16) &&& 0xFFFF), hexRepr (v4 &&& 0xFFFF)]
    else some parts0
  match withV4 with
  | none => none
  | some parts =>
    if parts.length > 9 then none
    else
    let emptyIdxs := (List.range' 1 (parts.length - 2)).filter fun i => parts.getD i [' '] = []
    match emptyIdxs with
    | [] =>
      if parts.length ≠ 8 then none
      else if parts.headD [' '] = [] then none
      else if parts.getLastD [' '] = [] then none
      else foldHextets 0 parts
    | [i] =>
      let hi := if parts.headD [' '] = [] then i - 1 else i
      if parts.headD [' '] = [] ∧ hi ≠ 0 then none
      else
      let lo0 := parts.length - i - 1
      let lo := if parts.getLastD [' '] = [] then lo0 - 1 else lo0
      if parts.getLastD [' '] = [] ∧ lo ≠ 0 then none
      else if hi + lo > 7 then none
      else
      match foldHextets 0 (parts.take hi) with
      | none => none
      | some hiV => foldHextets (hiV <<< (16 * (8 - (hi + lo)))) (lastSlice lo parts)
    | _ => none

/-- ipaddress._BaseV6._split_scope_id: partition at the percent sign; a
present but empty scope, or a second percent sign, is rejected. -/
def splitScopeId (s : List Char) : Option (List Char × Option (List Char)) :=
  let r := pyPartition '%' s
  if !r.2.1 then some (r.1, none)
  else if r.2.2.isEmpty || '%' ∈ r.2.2 then none
  else some (r.1, some r.2.2)

/-- ipaddress.IPv6Address constructed from a string: rejects a slash,
splits a scope id, then parses the address text. -/
def v6AddressParse (s : List Char) : Option (Nat × Option (List Char)) :=
  if '/' ∈ s then none
  else
    match splitScopeId s with
    | none => none
    | some (a, sc) => (v6IntFromString a).map fun n => (n, sc)

/-- A parsed IPv6 network: network address int, scope id of the network
address, prefix length. -/
structure Net6 where
  addr : Nat
  scope : Option (List Char)
  plen : Nat
deriving DecidableEq, Repr

/-- _ip_int_from_prefix for IPv6. -/
def v6IpIntFromPlen (plen : Nat) : Nat :=
  (2 ^ 128 - 1) ^^^ ((2 ^ 128 - 1) >>> plen)

/-- _prefix_from_prefix_string for IPv6: ASCII digits, value within 0..128
(the IPv6 _make_netmask accepts only this form for strings). -/
def v6PlenFromNumericStr (s : List Char) : Option Nat :=
  if !pyIsAsciiDigits s then none
  else if digitsVal s ≤ 128 then some (digitsVal s) else none

/-- Tail of IPv6Network.__init__: with strict false, clear host bits; the
normalized address is rebuilt from an int, so its scope id is dropped. -/
def v6NetFinish (ip : Nat) (sc : Option (List Char)) (plen : Nat) (strict : Bool) :
    Option Net6 :=
  let nm := v6IpIntFromPlen plen
  if ip &&& nm ≠ ip then
    if strict then none else some ⟨ip &&& nm, none, plen⟩
  else some ⟨ip, sc, plen⟩

/-- ipaddress.IPv6Network built from a string (default prefix length 128). -/
def v6NetworkParse (s : List Char) (strict : Bool) : Option Net6 :=
  match pySplit '/' s with
  | [a] =>
    match v6AddressParse a with
    | some p => v6NetFinish p.1 p.2 128 strict
    | none => none
  | [a, m] =>
    match v6AddressParse a with
    | some p =>
      match v6PlenFromNumericStr m with
      | some plen => v6NetFinish p.1 p.2 plen strict
      | none => none
    | none => none
  | _ => none

/-- _BaseNetwork.hostmask for IPv6. -/
def v6Hostmask (n : Net6) : Nat := v6IpIntFromPlen n.plen ^^^ (2 ^ 128 - 1)

/-- _BaseNetwork.broadcast_address for IPv6. -/
def v6Broadcast (n : Net6) : Nat := n.addr ||| v6Hostmask n

/-- _BaseNetwork.num_addresses for IPv6. -/
def v6NumAddresses (n : Net6) : Nat := v6Broadcast n - n.addr + 1

/-- The eight hextet groups of a 128 bit int, rendered without leading
zeros, as produced before compression in _string_from_ip_int. -/
def v6Hextets (ip : Nat) : List (List Char) :=
  (List.range 8).map fun j => hexRepr ((ip >>> (16 * (7 - j))) &&& 0xFFFF)

/-- The best-zero-run scan of _compress_hextets: returns the start index
and length of the longest run of single-zero hextets. -/
def bestRunAux : List (List Char) → Nat → Nat → Nat → Nat → Nat → Nat × Nat
  | [], _, bs, bl, _, _ => (bs, bl)
  | h :: t, idx, bs, bl, cs, cl =>
    if h = ['0'] then
      let cs2 := if cl = 0 then idx else cs
      let cl2 := cl + 1
      if cl2 > bl then bestRunAux t (idx + 1) cs2 cl2 cs2 cl2
      else bestRunAux t (idx + 1) bs bl cs2 cl2
    else bestRunAux t (idx + 1) bs bl 0 0

/-- Start and length of the longest zero run in a hextet list. -/
def bestZeroRun (l : List (List Char)) : Nat × Nat := bestRunAux l 0 0 0 0 0

/-- ipaddress._BaseV6._compress_hextets: replace the longest zero run
(when longer than one) by an empty segment, padding the ends so joining
with colons yields the compressed form. -/
def compressHextets (hextets : List (List Char)) : List (List Char) :=
  let r := bestZeroRun hextets
  if r.2 > 1 then
    let bEnd := r.1 + r.2
    let hx := if bEnd = hextets.length then hextets ++ [[]] else hextets
    let hx2 := hx.take r.1 ++ [[]] ++ hx.drop bEnd
    if r.1 = 0 then [] :: hx2 else hx2
  else hextets

/-- ipaddress._BaseV6._string_from_ip_int: compressed colon-joined form. -/
def v6CompressedRepr (ip : Nat) : List Char :=
  List.intercalate [':'] (compressHextets (v6Hextets ip))

/-- IPv6Address.__str__: the compressed form, with the scope id appended
after a percent sign when present. -/
def v6ReprS (ip : Nat) (sc : Option (List Char)) : List Char :=
  v6CompressedRepr ip ++ (match sc with | some z => '%' :: z | none => [])

/-- A hextet group zero-padded to width four (a slice of the %032x form). -/
def hexPad4 (n : Nat) : List Char := padLeft '0' 4 (hexRepr n)

/-- IPv6Address.exploded (_explode_shorthand_ip_string): reparse str(self)
and render all eight groups zero padded; reparsing fails for a scoped
address because the scope text is not a hextet. -/
def v6Exploded (ip : Nat) (sc : Option (List Char)) : Option (List Char) :=
  (v6IntFromString (v6ReprS ip sc)).map fun n =>
    List.intercalate [':'] ((List.range 8).map fun j => hexPad4 ((n >>> (16 * (7 - j))) &&& 0xFFFF))

/-- Membership of an IPv6 address int in a concretely given network. -/
def inNet6 (ip : Nat) (netAddr plen : Nat) : Bool :=
  ip &&& v6IpIntFromPlen plen = netAddr

/-- _IPv6Constants._private_networks as address int and prefix length. -/
def v6PrivateNetworks : List (Nat × Nat) :=
  [(0x1, 128), (0x0, 128), (0xFFFF00000000, 96),
   (0x01000000000000000000000000000000, 64),
   (0x20010000000000000000000000000000, 23),
   (0x20010002000000000000000000000000, 48),
   (0x20010DB8000000000000000000000000, 32),
   (0x20010010000000000000000000000000, 28),
   (0xFC000000000000000000000000000000, 7),
   (0xFE800000000000000000000000000000, 10)]

/-- _IPv6Constants._reserved_networks as address int and prefix length. -/
def v6ReservedNetworks : List (Nat × Nat) :=
  [(0x0, 8), (0x01000000000000000000000000000000, 8),
   (0x02000000000000000000000000000000, 7), (0x04000000000000000000000000000000, 6),
   (0x08000000000000000000000000000000, 5), (0x10000000000000000000000000000000, 4),
   (0x40000000000000000000000000000000, 3), (0x60000000000000000000000000000000, 3),
   (0x80000000000000000000000000000000, 3), (0xA0000000000000000000000000000000, 3),
   (0xC0000000000000000000000000000000, 3), (0xE0000000000000000000000000000000, 4),
   (0xF0000000000000000000000000000000, 5), (0xF8000000000000000000000000000000, 6),
   (0xFE000000000000000000000000000000, 9)]

/-- IPv6Address.is_private: the IPv4 mapped case defers to the IPv4 flag,
otherwise membership in the private list. -/
def v6IsPrivate (ip : Nat) : Bool :=
  if ip >>> 32 = 0xFFFF then v4IsPrivate (ip &&& 0xFFFFFFFF)
  else v6PrivateNetworks.any fun p => inNet6 ip p.1 p.2

/-- IPv6Address.is_global: not private. -/
def v6IsGlobal (ip : Nat) : Bool := !v6IsPrivate ip

/-- IPv6Address.is_reserved: membership in any reserved network. -/
def v6IsReserved (ip : Nat) : Bool :=
  v6ReservedNetworks.any fun p => inNet6 ip p.1 p.2

/-- IPv6Address.is_loopback: the int is 1. -/
def v6IsLoopback (ip : Nat) : Bool := ip = 1

/-- IPv6Address.is_link_local: membership in fe80::/10. -/
def v6IsLinkLocal (ip : Nat) : Bool :=
  inNet6 ip 0xFE800000000000000000000000000000 10

/-- ipaddress.ip_address result: an IPv4 or IPv6 address object. -/
inductive PyAddr where
  | v4 (ip : Nat)
  | v6 (ip : Nat) (scope : Option (List Char))
deriving DecidableEq, Repr

/-- ipaddress.ip_address: try IPv4Address, then IPv6Address. -/
def pyIpAddress (s : List Char) : Option PyAddr :=
  match v4AddressParse s with
  | some ip => some (.v4 ip)
  | none => (v6AddressParse s).map fun p => .v6 p.1 p.2

/-- ipaddress.ip_network result: an IPv4 or IPv6 network object. -/
inductive PyNet where
  | v4 (n : Net4)
  | v6 (n : Net6)
deriving DecidableEq, Repr

/-- ipaddress.ip_network: try IPv4Network, then IPv6Network. -/
def pyIpNetwork (s : List Char) (strict : Bool) : Option PyNet :=
  match v4NetworkParse s strict with
  | some n => some (.v4 n)
  | none => (v6NetworkParse s strict).map .v6

/-! ## get_ip_range.py helper functions -/

/-- get_network_class (get_ip_range.py:233): int() of the first
dot-separated field of the network address string, then the historic
class letter.  The int() call raises (none) for an IPv6 rendering. -/
def getNetworkClass (addrStr : List Char) : Option (List Char) :=
  match pySplit '.' addrStr with
  | [] => none
  | f :: _ =>
    (pyIntParse f).map fun fo =>
      if fo ≤ 127 then sLit "A"
      else if fo ≤ 191 then sLit "B"
      else if fo ≤ 223 then sLit "C"
      else if fo ≤ 239 then sLit "D (组播)"
      else sLit "E (保留)"

/-- get_network_type (get_ip_range.py:249). -/
def getNetworkType (plen : Nat) : List Char :=
  if plen = 32 then sLit "单个主机 (/32)"
  else if plen = 31 then sLit "点对点链接 (/31)"
  else if plen ≥ 30 then sLit "超小型网络 (/" ++ pyNatRepr plen ++ sLit ")"
  else if plen ≥ 24 then sLit "小型网络 (/" ++ pyNatRepr plen ++ sLit ")"
  else if plen ≥ 16 then sLit "中型网络 (/" ++ pyNatRepr plen ++ sLit ")"
  else if plen ≥ 8 then sLit "大型网络 (/" ++ pyNatRepr plen ++ sLit ")"
  else sLit "超大型网络 (/" ++ pyNatRepr plen ++ sLit ")"

/-- The recommendation record of recommend_network_use. -/
structure Recommendation where
  primaryUse : List Char
  typicalScenarios : List (List Char)
  recommendedSize : List Char
deriving DecidableEq, Repr

/-- recommend_network_use (get_ip_range.py:267). -/
def recommendNetworkUse (plen : Nat) : Recommendation :=
  if plen = 32 then
    ⟨sLit "单个服务器或设备", [sLit "VPN终端", sLit "关键服务器", sLit "网络设备管理IP"], []⟩
  else if plen = 31 then
    ⟨sLit "点对点链接", [sLit "路由器间连接", sLit "网络设备直连"], []⟩
  else if 29 ≤ plen ∧ plen ≤ 30 then
    ⟨sLit "小型网络", [sLit "分支机构", sLit "小型办公室", sLit "服务器集群"], sLit "2-14台主机"⟩
  else if 25 ≤ plen ∧ plen ≤ 28 then
    ⟨sLit "办公网络", [sLit "部门网络", sLit "中型办公室", sLit "实验室网络"], sLit "14-254台主机"⟩
  else if 22 ≤ plen ∧ plen ≤ 24 then
    ⟨sLit "园区网络", [sLit "校园网", sLit "企业网络", sLit "数据中心"], sLit "254-1022台主机"⟩
  else
    ⟨sLit "大型基础设施", [sLit "ISP分配", sLit "大型企业", sLit "云服务提供商"], []⟩

/-- Option-valued map over a list: the whole computation fails when any
element fails, modelling an exception inside a Python comprehension. -/
def optionMapList {A B : Type} (f : A → Option B) : List A → Option (List B)
  | [] => some []
  | x :: xs =>
    match f x, optionMapList f xs with
    | some y, some ys => some (y :: ys)
    | _, _ => none

/-- The binary rendering loop of get_ip_range.py (lines 84, 85, 379):
dot-join of format(int(octet), '08b') over the dot-split of the string;
none models the ValueError raised by int() on a non-decimal field. -/
def binaryOctets (s : List Char) : Option (List Char) :=
  (optionMapList (fun o => (pyIntParse o).map fmt08b) (pySplit '.' s)).map
    (List.intercalate ['.'])

/-! ## get_ip_range (the main tool) -/

/-- The usable range block computed at get_ip_range.py:64-81. -/
structure UsableInfo where
  totalUsable : Nat
  firstUsable : List Char
  lastUsable : List Char
  usableIps : List (List Char)
deriving DecidableEq, Repr

/-- Lines 64-81 of get_ip_range.py: the three way branch on the prefix
length; for prefix lengths up to 30 the hosts list is materialized and the
ends are taken from it (with the N/A guard of lines 79-80). -/
def usableInfo (n : Net4) : UsableInfo :=
  if n.plen = 32 then
    ⟨1, v4ReprS n.addr, v4ReprS n.addr, [v4ReprS n.addr]⟩
  else if n.plen = 31 then
    ⟨2, v4ReprS n.addr, v4ReprS (v4Broadcast n), [v4ReprS n.addr, v4ReprS (v4Broadcast n)]⟩
  else
    let hosts := v4Hosts n
    ⟨v4NumAddresses n - 2,
     match hosts.head? with | some h => v4ReprS h | none => sLit "N/A",
     match hosts.getLast? with | some h => v4ReprS h | none => sLit "N/A",
     hosts.map v4ReprS⟩

/-- Lines 87-91 of get_ip_range.py: network_address + num_addresses; the
IPv4Address constructor raises above ALL_ONES and the bare except turns
that into the string N/A. -/
def nextNetworkStr (n : Net4) : List Char :=
  if n.addr + v4NumAddresses n > 2 ^ 32 - 1 then sLit "N/A"
  else v4ReprS (n.addr + v4NumAddresses n)

/-- One entry of the possible_subnets list (lines 98-102). -/
structure SubnetPoss where
  newPlen : Nat
  subnetCount : Nat
  hostsPerSubnet : Nat
deriving DecidableEq, Repr

/-- Lines 94-102 of get_ip_range.py: for a prefix length below 30 iterate
new_prefix over range(prefixlen+1, min(31, prefixlen+5)). -/
def subnetPossibilities (plen : Nat) : List SubnetPoss :=
  if plen < 30 then
    (List.range' (plen + 1) (min 31 (plen + 5) - (plen + 1))).map fun np =>
      ⟨np, 2 ^ (np - plen), if np < 31 then 2 ^ (32 - np) - 2 else 2⟩
  else []

/-- The all_usable_ips section (lines 160-179): the full list, the sampled
display for a large listing, or the bounded preview. -/
inductive IpListing where
  | full (count : Nat) (list : List (List Char))
  | sampled (count : Nat) (note : List Char)
      (first50 last50 sampleInterval : List (List Char))
  | preview (count : Nat) (note : List Char) (sample : List (List Char))
deriving DecidableEq, Repr

/-- Lines 160-179 of get_ip_range.py. -/
def allUsableIps (showAllIps : Bool) (totalUsable : Nat)
    (usableIps : List (List Char)) : IpListing :=
  if showAllIps ∧ totalUsable ≤ 1000 then .full totalUsable usableIps
  else if showAllIps then
    .sampled totalUsable
      (sLit "网络过大，显示所有" ++ pyNatRepr totalUsable ++ sLit "个IP可能影响性能")
      (usableIps.take 50)
      (lastSlice 50 usableIps)
      ((sliceStep usableIps (max 1 (totalUsable / 20))).take 20)
  else
    .preview totalUsable (sLit "使用 show_all_ips=true 参数查看完整列表")
      (if totalUsable > 10 then usableIps.take 10 else usableIps)

/-- The success report of get_ip_range.  Fields that no claim concerns and
that cannot raise are omitted from the embedding: the metadata block
(wall-clock timestamps), the address_properties block, the statistics and
display blocks. -/
structure IpRangeReport where
  inputOriginal : List Char
  normalized : List Char
  networkAddress : List Char
  broadcastAddress : List Char
  netmaskStr : List Char
  wildcardMask : List Char
  cidrNotation : List Char
  plen : Nat
  totalAddresses : Nat
  networkClass : List Char
  networkType : List Char
  networkBinary : List Char
  maskBinary : List Char
  firstUsable : List Char
  lastUsable : List Char
  totalUsable : Nat
  nextNetwork : List Char
  possibleSubnets : List SubnetPoss
  maxSubnets : Nat
  recommendedPlen : Nat
  recommendation : Recommendation
  allIps : IpListing
deriving DecidableEq, Repr

/-- The error document built in the except ValueError branch of
get_ip_range (lines 198-230): the type field is the literal string
ValueError, the original input is echoed, and the examples block lists
valid formats.  The exception message text and the constant help strings
are not modelled. -/
structure ErrorDoc where
  errType : List Char
  input : List Char
  validFormats : List (List Char)
deriving DecidableEq, Repr

/-- The error document of get_ip_range for a given input. -/
def mkErrorDoc (input : List Char) : ErrorDoc :=
  ⟨sLit "ValueError", input,
   [sLit "192.168.1.0/24", sLit "10.0.0.0/16", sLit "172.16.0.0/12",
    sLit "192.168.1.100/28"]⟩

/-- The body of the try block of get_ip_range for an IPv4 network: every
int() conversion is threaded through Option; a none propagates to the
except ValueError branch. -/
def buildReport (s : List Char) (showAll : Bool) (n : Net4) : Option IpRangeReport :=
  let naStr := v4ReprS n.addr
  let nmStr := v4ReprS (v4Netmask n)
  match getNetworkClass naStr with
  | none => none
  | some cls =>
    match binaryOctets naStr, binaryOctets nmStr with
    | some nb, some mb =>
      let u := usableInfo n
      some
        { inputOriginal := s
          normalized := naStr ++ sLit "/" ++ pyNatRepr n.plen
          networkAddress := naStr
          broadcastAddress := v4ReprS (v4Broadcast n)
          netmaskStr := nmStr
          wildcardMask := v4ReprS (v4Hostmask n)
          cidrNotation := sLit "/" ++ pyNatRepr n.plen
          plen := n.plen
          totalAddresses := v4NumAddresses n
          networkClass := cls
          networkType := getNetworkType n.plen
          networkBinary := nb
          maskBinary := mb
          firstUsable := u.firstUsable
          lastUsable := u.lastUsable
          totalUsable := u.totalUsable
          nextNetwork := nextNetworkStr n
          possibleSubnets := subnetPossibilities n.plen
          maxSubnets := if n.plen < 30 then 2 ^ (30 - n.plen) else 1
          recommendedPlen := min 28 (n.plen + 4)
          recommendation := recommendNetworkUse n.plen
          allIps := allUsableIps showAll u.totalUsable u.usableIps }
    | _, _ => none

/-- get_ip_range (get_ip_range.py:30).  For an IPv6 network the flow
reaches get_network_class, whose int() raises on a colon-bearing string
(theorem getNetworkClass_v6_fails below), so the except branch returns the
error document; the unreachable IPv6 success continuation is not
modelled. -/
def getIpRange (s : List Char) (showAll : Bool) : Except ErrorDoc IpRangeReport :=
  match pyIpNetwork s false with
  | none => .error (mkErrorDoc s)
  | some (.v6 _) => .error (mkErrorDoc s)
  | some (.v4 n) =>
    match buildReport s showAll n with
    | some r => .ok r
    | none => .error (mkErrorDoc s)

/-! ## get_ip_range_summary -/

/-- Network level is_private for IPv4 (_BaseNetwork.is_private): some
private network contains both the network and the broadcast address. -/
def v4NetIsPrivate (n : Net4) : Bool :=
  v4PrivateNetworks.any fun p => inNet4 n.addr p.1 p.2 && inNet4 (v4Broadcast n) p.1 p.2

/-- IPv4Network.is_global: not inside 100.64.0.0/10 and not private. -/
def v4NetIsGlobal (n : Net4) : Bool :=
  !(inNet4 n.addr 0x64400000 10 && inNet4 (v4Broadcast n) 0x64400000 10) && !v4NetIsPrivate n

/-- The success report of get_ip_range_summary (lines 324-342). -/
structure SummaryReport where
  input : List Char
  networkAddress : List Char
  netmaskStr : List Char
  cidr : List Char
  usableRange : List Char
  totalAddresses : Nat
  usableHosts : Nat
  broadcastAddress : List Char
  networkClass : List Char
  networkType : List Char
  isPrivate : Bool
  isPublic : Bool
  hostBits : Nat
deriving DecidableEq, Repr

/-- The error document of get_ip_range_summary (lines 346-351): input and
the constant help string; the exception message is not modelled. -/
structure SummaryErrorDoc where
  input : List Char
  help : List Char
deriving DecidableEq, Repr

/-- The constant help string of the summary error document. -/
def summaryHelp : List Char := sLit "请输入有效的CIDR格式，如: 192.168.1.0/24"

/-- get_ip_range_summary (get_ip_range.py:306).  For an IPv6 network the
flow reaches get_network_class at line 334, which raises, so the error
document is returned (same justification as in getIpRange).  In the branch
for prefix lengths up to 30 the hosts list is never empty (theorem
v4Hosts_ne_nil below), so the unguarded hosts[0] cannot raise; headD is
used with an arbitrary default. -/
def getIpRangeSummary (s : List Char) : Except SummaryErrorDoc SummaryReport :=
  match pyIpNetwork s false with
  | none => .error ⟨s, summaryHelp⟩
  | some (.v6 _) => .error ⟨s, summaryHelp⟩
  | some (.v4 n) =>
    let naStr := v4ReprS n.addr
    let tu := if n.plen = 32 then 1 else if n.plen = 31 then 2 else v4NumAddresses n - 2
    let fu := if n.plen = 32 then naStr else if n.plen = 31 then naStr
              else v4ReprS ((v4Hosts n).headD 0)
    let lu := if n.plen = 32 then naStr else if n.plen = 31 then v4ReprS (v4Broadcast n)
              else v4ReprS ((v4Hosts n).getLastD 0)
    .ok
      { input := s
        networkAddress := naStr
        netmaskStr := v4ReprS (v4Netmask n)
        cidr := sLit "/" ++ pyNatRepr n.plen
        usableRange := fu ++ sLit " - " ++ lu
        totalAddresses := v4NumAddresses n
        usableHosts := tu
        broadcastAddress := v4ReprS (v4Broadcast n)
        networkClass := (getNetworkClass naStr).getD []
        networkType := getNetworkType n.plen
        isPrivate := v4NetIsPrivate n
        isPublic := v4NetIsGlobal n
        hostBits := 32 - n.plen }

/-! ## validate_ip -/

/-- The single address document of validate_ip (lines 364-382). -/
structure SingleIpDoc where
  input : List Char
  version : Nat
  isPrivate : Bool
  isGlobal : Bool
  isReserved : Bool
  isMulticast : Bool
  isLoopback : Bool
  isLinkLocal : Bool
  decimalForm : List Char
  binaryForm : List Char
  hexForm : List Char
deriving DecidableEq, Repr

/-- Construction of the single address document; the binary field applies
the dot-split int() rendering to str(ip), which raises for every IPv6
address (its string contains a colon), making the whole construction fall
to the network branch.  The multicast field is ip.is_multicast for version
4 and the literal False otherwise, as written at line 373. -/
def mkSingleDoc (s : List Char) (a : PyAddr) : Option SingleIpDoc :=
  match a with
  | .v4 ip =>
    (binaryOctets (v4ReprS ip)).map fun b =>
      ⟨s, 4, v4IsPrivate ip, v4IsGlobal ip, v4IsReserved ip, v4IsMulticast ip,
       v4IsLoopback ip, v4IsLinkLocal ip, v4ReprS ip, b, v4ReprS ip⟩
  | .v6 ip sc =>
    match binaryOctets (v6ReprS ip sc) with
    | none => none
    | some b =>
      (v6Exploded ip sc).map fun h =>
        ⟨s, 6, v6IsPrivate ip, v6IsGlobal ip, v6IsReserved ip, false,
         v6IsLoopback ip, v6IsLinkLocal ip, v6ReprS ip sc, b, h⟩

/-- The network document of validate_ip (lines 391-403). -/
structure NetVDoc where
  input : List Char
  version : Nat
  networkAddress : List Char
  broadcastAddress : List Char
  netmaskStr : List Char
  cidr : List Char
  totalAddresses : Nat
deriving DecidableEq, Repr

/-- Construction of the network document; broadcast and netmask are
rebuilt from ints, hence scope-free. -/
def mkNetVDoc (s : List Char) (nw : PyNet) : NetVDoc :=
  match nw with
  | .v4 n =>
    ⟨s, 4, v4ReprS n.addr, v4ReprS (v4Broadcast n), v4ReprS (v4Netmask n),
     sLit "/" ++ pyNatRepr n.plen, v4NumAddresses n⟩
  | .v6 n =>
    ⟨s, 6, v6ReprS n.addr n.scope, v6ReprS (v6Broadcast n) none,
     v6ReprS (v6IpIntFromPlen n.plen) none, sLit "/" ++ pyNatRepr n.plen,
     v6NumAddresses n⟩

/-- The invalid document of validate_ip (lines 408-417). -/
structure InvalidDoc where
  input : List Char
  suggestions : List (List Char)
deriving DecidableEq, Repr

/-- The constant suggestions list of the invalid document. -/
def invalidSuggestions : List (List Char) :=
  [sLit "检查IP地址格式是否正确", sLit "掩码范围应在0-32之间",
   sLit "示例: 192.168.1.1 或 192.168.1.0/24"]

/-- The three possible results of validate_ip. -/
inductive ValidationDoc where
  | single (d : SingleIpDoc)
  | network (d : NetVDoc)
  | invalid (d : InvalidDoc)
deriving DecidableEq, Repr

/-- validate_ip (get_ip_range.py:358): try the single address parse and
document construction, on ValueError try the network parse, and as the
last resort return the invalid document.  Total by construction. -/
def validateIp (s : List Char) : ValidationDoc :=
  match (pyIpAddress s).bind (mkSingleDoc s) with
  | some d => .single d
  | none =>
    match pyIpNetwork s false with
    | some nw => .network (mkNetVDoc s nw)
    | none => .invalid ⟨s, invalidSuggestions⟩

/-- A well formed IPv4 network value: prefix length at most 32 and no host
bits set in the network address.  Every network the parser returns
satisfies this (theorem v4NetworkParse_valid). -/
def Net4Valid (n : Net4) : Prop :=
  n.plen ≤ 32 ∧ n.addr &&& v4Netmask n = n.addr

instance (n : Net4) : Decidable (Net4Valid n) := by
  unfold Net4Valid
  infer_instance

/-- The canonical dotted-quad string of four octet values, used to state
the acceptance direction of the parser claims. -/
def quadStr (a b c d : Nat) : List Char :=
  pyNatRepr a ++ '.' :: (pyNatRepr b ++ '.' :: (pyNatRepr c ++ '.' :: pyNatRepr d))

/-- The 32 bit value of four octets, big endian, as assembled by
_ip_int_from_string. -/
def quadVal (a b c d : Nat) : Nat := ((a * 256 + b) * 256 + c) * 256 + d

/-! ## Bitwise facts about netmask, hostmask, broadcast -/

theorem land_land_self (x m : Nat) : (x &&& m) &&& m = x &&& m := by
  apply Nat.eq_of_testBit_eq
  intro i
  simp [Nat.testBit_land, Bool.and_assoc]

theorem land_two_pow_sub_one (x k : Nat) : x &&& (2 ^ k - 1) = x % 2 ^ k := by
  apply Nat.eq_of_testBit_eq
  intro i
  simp only [Nat.testBit_land, Nat.testBit_two_pow_sub_one, Nat.testBit_mod_two_pow]
  exact Bool.and_comm _ _

theorem lor_eq_add_of_disjoint (a b k : Nat) (ha : a % 2 ^ k = 0) (hb : b < 2 ^ k) :
    a ||| b = a + b := by
  have h2k : 0 < 2 ^ k := Nat.pos_pow_of_pos _ (by norm_num)
  have ha2 : a = 2 ^ k * (a / 2 ^ k) := by
    have := Nat.div_add_mod a (2 ^ k)
    omega
  apply Nat.eq_of_testBit_eq
  intro i
  rw [Nat.testBit_lor]
  by_cases hik : i < k
  · have h1 : a.testBit i = false := by
      rw [ha2, Nat.mul_comm, ← Nat.shiftLeft_eq, Nat.testBit_shiftLeft]
      simp
      omega
    have hmod : (a + b) % 2 ^ k = b := by
      rw [Nat.add_mod, ha, Nat.zero_add, Nat.mod_mod_of_dvd b (dvd_refl _),
        Nat.mod_eq_of_lt hb]
    have h2 : (a + b).testBit i = b.testBit i := by
      have := Nat.testBit_mod_two_pow (a + b) k i
      rw [hmod] at this
      rw [this]
      simp [hik]
    rw [h1, h2, Bool.false_or]
  · have hki : k ≤ i := by omega
    have hb' : b.testBit i = false :=
      Nat.testBit_eq_false_of_lt
        (lt_of_lt_of_le hb (Nat.pow_le_pow_right (by norm_num) hki))
    have hdiv : (a + b) / 2 ^ i = a / 2 ^ i := by
      have e1 : (2 : Nat) ^ k * 2 ^ (i - k) = 2 ^ i := by
        rw [← pow_add]
        congr 1
        omega
      calc (a + b) / 2 ^ i = (a + b) / 2 ^ k / 2 ^ (i - k) := by
            rw [Nat.div_div_eq_div_mul, e1]
        _ = (2 ^ k * (a / 2 ^ k) + b) / 2 ^ k / 2 ^ (i - k) := by rw [← ha2]
        _ = (a / 2 ^ k + b / 2 ^ k) / 2 ^ (i - k) := by rw [Nat.mul_add_div h2k]
        _ = a / 2 ^ k / 2 ^ (i - k) := by rw [Nat.div_eq_of_lt hb, Nat.add_zero]
        _ = a / 2 ^ i := by rw [Nat.div_div_eq_div_mul, e1]
    rw [hb', Bool.or_false, Nat.testBit_to_div_mod, Nat.testBit_to_div_mod, hdiv]

theorem testBit_v4Netmask (p i : Nat) (hp : p ≤ 32) :
    (v4IpIntFromPlen p).testBit i = decide (32 - p ≤ i ∧ i < 32) := by
  unfold v4IpIntFromPlen
  rw [Nat.testBit_xor, Nat.testBit_shiftRight, Nat.testBit_two_pow_sub_one,
    Nat.testBit_two_pow_sub_one]
  by_cases h1 : i < 32 <;> by_cases h2 : p + i < 32 <;>
    simp [h1, h2] <;> omega

theorem testBit_v4HostmaskVal (p i : Nat) (hp : p ≤ 32) :
    (v4IpIntFromPlen p ^^^ (2 ^ 32 - 1)).testBit i = decide (i < 32 - p) := by
  rw [Nat.testBit_xor, testBit_v4Netmask p i hp, Nat.testBit_two_pow_sub_one]
  by_cases h1 : 32 - p ≤ i <;> by_cases h2 : i < 32 <;>
    simp [h1, h2] <;> omega

theorem v4HostmaskVal_eq (p : Nat) (hp : p ≤ 32) :
    v4IpIntFromPlen p ^^^ (2 ^ 32 - 1) = 2 ^ (32 - p) - 1 := by
  apply Nat.eq_of_testBit_eq
  intro i
  rw [testBit_v4HostmaskVal p i hp, Nat.testBit_two_pow_sub_one]

theorem Net4Valid.testBit_low {n : Net4} (h : Net4Valid n) {i : Nat}
    (hi : i < 32 - n.plen) : n.addr.testBit i = false := by
  conv_lhs => rw [← h.2]
  unfold v4Netmask
  rw [Nat.testBit_land, testBit_v4Netmask _ _ h.1]
  have hd : decide (32 - n.plen ≤ i ∧ i < 32) = false := by
    simp only [decide_eq_false_iff_not]
    omega
  rw [hd, Bool.and_false]

theorem Net4Valid.addr_mod {n : Net4} (h : Net4Valid n) :
    n.addr % 2 ^ (32 - n.plen) = 0 := by
  apply Nat.zero_of_testBit_eq_false
  intro i
  rw [Nat.testBit_mod_two_pow]
  by_cases hi : i < 32 - n.plen
  · simp [hi, h.testBit_low hi]
  · simp [hi]

theorem v4_addr_land_hostmask {n : Net4} (h : Net4Valid n) :
    n.addr &&& v4Hostmask n = 0 := by
  apply Nat.zero_of_testBit_eq_false
  intro i
  unfold v4Hostmask v4Netmask
  rw [Nat.testBit_land, testBit_v4HostmaskVal _ _ h.1]
  by_cases hi : i < 32 - n.plen
  · rw [h.testBit_low hi, Bool.false_and]
  · have hd : decide (i < 32 - n.plen) = false := by
      simp only [decide_eq_false_iff_not]
      omega
    rw [hd, Bool.and_false]

theorem v4Hostmask_eq {n : Net4} (h : n.plen ≤ 32) :
    v4Hostmask n = 2 ^ (32 - n.plen) - 1 := by
  unfold v4Hostmask v4Netmask
  exact v4HostmaskVal_eq _ h

theorem v4Broadcast_eq {n : Net4} (h : Net4Valid n) :
    v4Broadcast n = n.addr + (2 ^ (32 - n.plen) - 1) := by
  unfold v4Broadcast
  rw [v4Hostmask_eq h.1]
  exact lor_eq_add_of_disjoint _ _ (32 - n.plen) h.addr_mod
    (Nat.sub_lt (Nat.pos_pow_of_pos _ (by norm_num)) (by norm_num))

theorem v4NumAddresses_eq {n : Net4} (h : Net4Valid n) :
    v4NumAddresses n = 2 ^ (32 - n.plen) := by
  unfold v4NumAddresses
  rw [v4Broadcast_eq h]
  have : 0 < 2 ^ (32 - n.plen) := Nat.pos_pow_of_pos _ (by norm_num)
  omega

theorem v4NetFinish_valid {ip plen : Nat} {strict : Bool} {n : Net4}
    (hp : plen ≤ 32) (h : v4NetFinish ip plen strict = some n) : Net4Valid n := by
  unfold v4NetFinish at h
  dsimp only at h
  split at h
  · next hc =>
    split at h
    · exact Option.noConfusion h
    · simp only [Option.some.injEq] at h
      subst h
      exact ⟨hp, land_land_self _ _⟩
  · next hc =>
    push_neg at hc
    simp only [Option.some.injEq] at h
    subst h
    exact ⟨hp, hc⟩

theorem v4PlenFromIpInt_le {x q : Nat} (hx : v4PlenFromIpInt x = some q) : q ≤ 32 := by
  unfold v4PlenFromIpInt at hx
  dsimp only at hx
  split at hx
  · exact Option.noConfusion hx
  · simp only [Option.some.injEq] at hx
    omega

theorem v4MakeNetmaskStr_le {s : List Char} {p : Nat}
    (h : v4MakeNetmaskStr s = some p) : p ≤ 32 := by
  unfold v4MakeNetmaskStr at h
  split at h
  · next q hn =>
    simp only [Option.some.injEq] at h
    subst h
    unfold v4PlenFromNumericStr at hn
    split at hn
    · simp at hn
    · split at hn
      · simp only [Option.some.injEq] at hn
        omega
      · simp at hn
  · unfold v4PlenFromIpStr at h
    split at h
    · simp at h
    · split at h
      · next q hq =>
        simp only [Option.some.injEq] at h
        subst h
        exact v4PlenFromIpInt_le hq
      · exact v4PlenFromIpInt_le h

theorem v4NetworkParse_valid {s : List Char} {strict : Bool} {n : Net4}
    (h : v4NetworkParse s strict = some n) : Net4Valid n := by
  unfold v4NetworkParse at h
  split at h
  · split at h
    · exact v4NetFinish_valid (by norm_num) h
    · simp at h
  · split at h
    · split at h
      · next plen hm => exact v4NetFinish_valid (v4MakeNetmaskStr_le hm) h
      · simp at h
    · simp at h
  · simp at h

/-! ## Decimal rendering and reparsing facts -/

theorem digitsVal_append_singleton (xs : List Char) (c : Char) :
    digitsVal (xs ++ [c]) = 10 * digitsVal xs + digitVal c := by
  unfold digitsVal
  rw [List.foldl_append]
  rfl

theorem digitChar_isDigit {d : Nat} (h : d < 10) :
    (Char.ofNat (48 + d)).isDigit = true := by
  interval_cases d <;> decide

theorem digitChar_ne_zero {d : Nat} (h1 : 1 ≤ d) (h2 : d < 10) :
    Char.ofNat (48 + d) ≠ '0' := by
  interval_cases d <;> decide

theorem natReprAux_digitsVal : ∀ fuel n, n ≤ fuel → digitsVal (natReprAux fuel n) = n := by
  intro fuel
  induction fuel with
  | zero =>
    intro n hn
    have : n = 0 := by omega
    subst this
    rfl
  | succ f ih =>
    intro n hn
    unfold natReprAux
    by_cases h0 : n = 0
    · subst h0
      simp [digitsVal]
    · rw [if_neg h0, digitsVal_append_singleton, ih (n / 10) (by omega)]
      have h10 : n % 10 < 10 := Nat.mod_lt _ (by norm_num)
      have hd : ∀ d : Nat, d < 10 → digitVal (Char.ofNat (48 + d)) = d := by
        intro d hdlt
        interval_cases d <;> decide
      rw [hd _ h10]
      omega

theorem natReprAux_digits : ∀ fuel n, ∀ c ∈ natReprAux fuel n, c.isDigit = true := by
  intro fuel
  induction fuel with
  | zero => intro n c hc; simp [natReprAux] at hc
  | succ f ih =>
    intro n c hc
    unfold natReprAux at hc
    by_cases h0 : n = 0
    · rw [if_pos h0] at hc; simp at hc
    · rw [if_neg h0] at hc
      rcases List.mem_append.1 hc with h | h
      · exact ih _ _ h
      · have := List.mem_singleton.1 h
        subst this
        exact digitChar_isDigit (Nat.mod_lt _ (by norm_num))

theorem natReprAux_ne_nil : ∀ fuel n, 0 < n → n ≤ fuel → natReprAux fuel n ≠ [] := by
  intro fuel
  cases fuel with
  | zero => intro n h1 h2; omega
  | succ f =>
    intro n h1 _
    unfold natReprAux
    rw [if_neg (by omega)]
    simp

theorem natReprAux_length : ∀ fuel n k, n ≤ fuel → n < 10 ^ k → (natReprAux fuel n).length ≤ k := by
  intro fuel
  induction fuel with
  | zero =>
    intro n k hn _
    have : n = 0 := by omega
    subst this
    simp [natReprAux]
  | succ f ih =>
    intro n k hn hk
    unfold natReprAux
    by_cases h0 : n = 0
    · rw [if_pos h0]; simp
    · rw [if_neg h0]
      have hk1 : 1 ≤ k := by
        by_contra hc
        have : k = 0 := by omega
        subst this
        simp at hk
        omega
      have hdiv : n / 10 < 10 ^ (k - 1) := by
        have : n < 10 ^ (k - 1) * 10 := by
          have : (10 : Nat) ^ (k - 1) * 10 = 10 ^ k := by
            rw [← pow_succ]
            congr 1
            omega
          omega
        omega
      rw [List.length_append]
      have := ih (n / 10) (k - 1) (by omega) hdiv
      simp only [List.length_singleton]
      omega

theorem natReprAux_head : ∀ fuel n, 0 < n → n ≤ fuel → (natReprAux fuel n).head? ≠ some '0' := by
  intro fuel
  induction fuel with
  | zero => intro n h1 h2; omega
  | succ f ih =>
    intro n h1 h2
    unfold natReprAux
    rw [if_neg (by omega)]
    by_cases h10 : n < 10
    · have : n / 10 = 0 := by omega
      rw [this]
      cases hf : natReprAux f 0 with
      | nil =>
        simp only [hf, List.nil_append, List.head?_cons, ne_eq, Option.some.injEq]
        have : n % 10 = n := Nat.mod_eq_of_lt h10
        rw [this]
        exact digitChar_ne_zero h1 h10
      | cons a t =>
        exfalso
        cases f with
        | zero => simp [natReprAux] at hf
        | succ g => simp [natReprAux] at hf
    · have hne := natReprAux_ne_nil f (n / 10) (by omega) (by omega)
      obtain ⟨p, ps, hp⟩ := List.exists_cons_of_ne_nil hne
      rw [hp, List.cons_append, List.head?_cons]
      have := ih (n / 10) (by omega) (by omega)
      rw [hp, List.head?_cons] at this
      exact this

theorem pyNatRepr_digitsVal (n : Nat) : digitsVal (pyNatRepr n) = n := by
  unfold pyNatRepr
  by_cases h : n = 0
  · subst h; rfl
  · rw [if_neg h]
    exact natReprAux_digitsVal (n + 1) n (by omega)

theorem pyNatRepr_digits (n : Nat) : ∀ c ∈ pyNatRepr n, c.isDigit = true := by
  unfold pyNatRepr
  by_cases h : n = 0
  · subst h; intro c hc; simp at hc; subst hc; decide
  · rw [if_neg h]
    exact natReprAux_digits (n + 1) n

theorem pyNatRepr_ne_nil (n : Nat) : pyNatRepr n ≠ [] := by
  unfold pyNatRepr
  by_cases h : n = 0
  · subst h; simp
  · rw [if_neg h]
    exact natReprAux_ne_nil (n + 1) n (by omega) (by omega)

theorem pyNatRepr_length_le_3 {n : Nat} (h : n ≤ 255) : (pyNatRepr n).length ≤ 3 := by
  unfold pyNatRepr
  by_cases h0 : n = 0
  · subst h0; simp
  · rw [if_neg h0]
    exact natReprAux_length (n + 1) n 3 (by omega) (by omega)

theorem pyNatRepr_head_ne_zero {n : Nat} (h : 0 < n) : (pyNatRepr n).head? ≠ some '0' := by
  unfold pyNatRepr
  rw [if_neg (by omega)]
  exact natReprAux_head (n + 1) n h (by omega)

theorem pyIsAsciiDigits_pyNatRepr (n : Nat) : pyIsAsciiDigits (pyNatRepr n) = true := by
  unfold pyIsAsciiDigits
  rw [Bool.and_eq_true, Bool.not_eq_true', List.isEmpty_eq_false_iff_exists_mem]
  constructor
  · obtain ⟨c, cs, hc⟩ := List.exists_cons_of_ne_nil (pyNatRepr_ne_nil n)
    exact ⟨c, by rw [hc]; exact List.mem_cons_self _ _⟩
  · rw [List.all_eq_true]
    exact pyNatRepr_digits n

theorem parseOctet_pyNatRepr {n : Nat} (h : n ≤ 255) : parseOctet (pyNatRepr n) = some n := by
  unfold parseOctet
  rw [if_neg, if_neg, if_neg, if_neg, if_neg]
  · rw [pyNatRepr_digitsVal]
  · rw [pyNatRepr_digitsVal]; omega
  · rintro ⟨hne, hhd⟩
    by_cases h0 : n = 0
    · subst h0; exact hne rfl
    · exact pyNatRepr_head_ne_zero (by omega) hhd
  · have := pyNatRepr_length_le_3 h
    omega
  · rw [pyIsAsciiDigits_pyNatRepr]; simp
  · rw [List.isEmpty_eq_false_iff_exists_mem.2]
    · simp
    · obtain ⟨c, cs, hc⟩ := List.exists_cons_of_ne_nil (pyNatRepr_ne_nil n)
      exact ⟨c, by rw [hc]; exact List.mem_cons_self _ _⟩

/-! ## Facts about the string primitives -/

theorem pySplit_ne_nil (c : Char) (l : List Char) : pySplit c l ≠ [] := by
  induction l with
  | nil => simp [pySplit]
  | cons x xs ih =>
    unfold pySplit
    cases h : pySplit c xs with
    | nil => simp
    | cons h2 t => by_cases hx : x = c <;> simp [hx]

theorem pySplit_of_not_mem {c : Char} {l : List Char} (h : c ∉ l) : pySplit c l = [l] := by
  induction l with
  | nil => rfl
  | cons x xs ih =>
    have hx : x ≠ c := fun he => h (he ▸ List.mem_cons_self x xs)
    have hxs : c ∉ xs := fun hm => h (List.mem_cons_of_mem _ hm)
    unfold pySplit
    rw [ih hxs]
    simp [hx]

theorem mem_of_pySplit_length {c : Char} {l : List Char}
    (h : 2 ≤ (pySplit c l).length) : c ∈ l := by
  by_contra hc
  rw [pySplit_of_not_mem hc] at h
  simp at h

theorem pySplit_append_left {c : Char} {xs ys : List Char} (hx : c ∉ xs)
    {h : List Char} {t : List (List Char)} (hy : pySplit c ys = h :: t) :
    pySplit c (xs ++ ys) = (xs ++ h) :: t := by
  induction xs with
  | nil => simpa using hy
  | cons x xs' ih =>
    have hxc : x ≠ c := fun he => hx (he ▸ List.mem_cons_self x xs')
    have hxs' : c ∉ xs' := fun hm => hx (List.mem_cons_of_mem _ hm)
    rw [List.cons_append]
    unfold pySplit
    rw [ih hxs']
    simp [hxc]

theorem pySplit_sep_cons {c : Char} {xs : List Char} (hx : c ∉ xs) (ys : List Char) :
    pySplit c (xs ++ c :: ys) = xs :: pySplit c ys := by
  obtain ⟨h, t, hy⟩ := List.exists_cons_of_ne_nil (pySplit_ne_nil c ys)
  have hcons : pySplit c (c :: ys) = [] :: h :: t := by
    unfold pySplit
    rw [hy]
    simp
  have := pySplit_append_left hx hcons
  rw [this, List.append_nil, hy]

theorem mem_part_of_mem {c x : Char} {l : List Char} (hx : x ∈ l) (hne : x ≠ c) :
    ∃ p ∈ pySplit c l, x ∈ p := by
  induction l with
  | nil => simp at hx
  | cons y ys ih =>
    obtain ⟨h, t, hy⟩ := List.exists_cons_of_ne_nil (pySplit_ne_nil c ys)
    unfold pySplit
    rw [hy]
    dsimp only
    by_cases hyc : y = c
    · rw [if_pos hyc]
      rcases List.mem_cons.1 hx with he | hm
      · exact absurd (he.trans hyc) hne
      · obtain ⟨p, hp, hxp⟩ := ih hm
        rw [hy] at hp
        exact ⟨p, List.mem_cons_of_mem _ hp, hxp⟩
    · rw [if_neg hyc]
      rcases List.mem_cons.1 hx with he | hm
      · exact ⟨y :: h, List.mem_cons_self _ _, he ▸ List.mem_cons_self _ _⟩
      · obtain ⟨p, hp, hxp⟩ := ih hm
        rw [hy] at hp
        rcases List.mem_cons.1 hp with hph | hpt
        · exact ⟨y :: h, List.mem_cons_self _ _, by
            rw [hph] at hxp
            exact List.mem_cons_of_mem _ hxp⟩
        · exact ⟨p, List.mem_cons_of_mem _ hpt, hxp⟩

theorem intercalate_cons_cons (s a b : List Char) (t : List (List Char)) :
    List.intercalate s (a :: b :: t) = a ++ s ++ List.intercalate s (b :: t) := by
  simp [List.intercalate, List.intersperse_cons_cons]

theorem mem_intercalate {x : Char} {s : List Char} :
    ∀ {l : List (List Char)}, x ∈ List.intercalate s l → x ∈ s ∨ ∃ p ∈ l, x ∈ p := by
  intro l
  induction l with
  | nil => intro h; simp [List.intercalate] at h
  | cons a t ih =>
    intro h
    cases t with
    | nil =>
      simp [List.intercalate] at h
      exact Or.inr ⟨a, List.mem_cons_self _ _, h⟩
    | cons b t2 =>
      rw [intercalate_cons_cons] at h
      rcases List.mem_append.1 h with h1 | h2
      · rcases List.mem_append.1 h1 with ha | hs
        · exact Or.inr ⟨a, List.mem_cons_self _ _, ha⟩
        · exact Or.inl hs
      · rcases ih h2 with hs | ⟨p, hp, hxp⟩
        · exact Or.inl hs
        · exact Or.inr ⟨p, List.mem_cons_of_mem _ hp, hxp⟩

theorem not_mem_of_all_digits {l : List Char} {x : Char}
    (h : ∀ c ∈ l, c.isDigit = true) (hx : x.isDigit = false) : x ∉ l := by
  intro hm
  have := h x hm
  rw [hx] at this
  cases this

theorem isPyWs_of_isDigit {c : Char} (h : c.isDigit = true) : isPyWs c = false := by
  by_contra hw
  rw [Bool.not_eq_false] at hw
  unfold isPyWs at hw
  simp only [Bool.or_eq_true, decide_eq_true_eq] at hw
  rcases hw with (((((h1 | h1) | h1) | h1) | h1) | h1) <;> subst h1 <;> exact absurd h (by decide)

theorem dropWhile_eq_self_of_forall {p : Char → Bool} {l : List Char}
    (h : ∀ c ∈ l, p c = false) : l.dropWhile p = l := by
  cases l with
  | nil => rfl
  | cons x xs =>
    rw [List.dropWhile_cons, h x (List.mem_cons_self _ _)]
    simp

theorem pyStrip_of_digits {l : List Char} (h : ∀ c ∈ l, c.isDigit = true) :
    pyStrip l = l := by
  unfold pyStrip
  have hws : ∀ c ∈ l, isPyWs c = false := fun c hc => isPyWs_of_isDigit (h c hc)
  rw [dropWhile_eq_self_of_forall hws,
    dropWhile_eq_self_of_forall (fun c hc => hws c (List.mem_reverse.1 hc)),
    List.reverse_reverse]

theorem mem_dropWhile_of_mem {p : Char → Bool} {l : List Char} {c : Char}
    (hc : c ∈ l) (hp : p c = false) : c ∈ l.dropWhile p := by
  induction l with
  | nil => simp at hc
  | cons x xs ih =>
    rw [List.dropWhile_cons]
    by_cases hx : p x = true
    · rw [if_pos hx]
      rcases List.mem_cons.1 hc with he | hm
      · rw [he] at hp; rw [hp] at hx; cases hx
      · exact ih hm
    · rw [if_neg hx]
      exact hc

theorem mem_pyStrip_of_mem {l : List Char} {c : Char} (hc : c ∈ l)
    (hp : isPyWs c = false) : c ∈ pyStrip l := by
  unfold pyStrip
  rw [List.mem_reverse]
  exact mem_dropWhile_of_mem (List.mem_reverse.2 (mem_dropWhile_of_mem hc hp)) hp

theorem digitsUGo_all_digits : ∀ (l : List Char) (acc : Nat),
    (∀ c ∈ l, c.isDigit = true) →
    digitsUGo acc l = some (l.foldl (fun a c => 10 * a + digitVal c) acc) := by
  intro l
  induction l with
  | nil => intro acc _; rfl
  | cons c rest ih =>
    intro acc h
    have hc : c.isDigit = true := h c (List.mem_cons_self _ _)
    cases rest with
    | nil =>
      unfold digitsUGo
      rw [hc]
      simp
    | cons d rest2 =>
      unfold digitsUGo
      rw [hc]
      simp only [if_true]
      rw [ih _ (fun x hx => h x (List.mem_cons_of_mem _ hx))]
      rfl

theorem digitsUGo_chars_aux : ∀ (n : Nat) (l : List Char) (acc v : Nat), l.length ≤ n →
    digitsUGo acc l = some v → ∀ x ∈ l, x.isDigit = true ∨ x = '_' := by
  intro n
  induction n with
  | zero =>
    intro l acc v hl _ x hx
    have : l = [] := List.eq_nil_of_length_eq_zero (by omega)
    subst this
    simp at hx
  | succ m ih =>
    intro l acc v hl hgo x hx
    cases l with
    | nil => simp at hx
    | cons c rest =>
      cases rest with
      | nil =>
        unfold digitsUGo at hgo
        by_cases hc : c.isDigit = true
        · simp at hx
          subst hx
          exact Or.inl hc
        · rw [Bool.not_eq_true] at hc
          rw [hc] at hgo
          simp at hgo
      | cons d rest2 =>
        unfold digitsUGo at hgo
        by_cases hc : c.isDigit = true
        · rw [hc] at hgo
          simp only [if_true] at hgo
          rcases List.mem_cons.1 hx with he | hm
          · exact he ▸ Or.inl hc
          · exact ih (d :: rest2) _ v (by simp at hl ⊢; omega) hgo x hm
        · rw [Bool.not_eq_true] at hc
          rw [hc] at hgo
          simp only [Bool.false_eq_true, if_false] at hgo
          by_cases hcu : c = '_'
          · rw [if_pos hcu] at hgo
            by_cases hd : d.isDigit = true
            · rw [hd] at hgo
              simp only [if_true] at hgo
              rcases List.mem_cons.1 hx with he | hm
              · exact Or.inr (he.trans hcu)
              · rcases List.mem_cons.1 hm with he2 | hm2
                · exact he2 ▸ Or.inl hd
                · exact ih rest2 _ v (by simp at hl ⊢; omega) hgo x hm2
            · rw [Bool.not_eq_true] at hd
              rw [hd] at hgo
              simp at hgo
          · rw [if_neg hcu] at hgo
            simp at hgo

theorem digitsUGo_chars {l : List Char} {acc v : Nat} (h : digitsUGo acc l = some v) :
    ∀ x ∈ l, x.isDigit = true ∨ x = '_' :=
  digitsUGo_chars_aux l.length l acc v (le_refl _) h

theorem digitsU_colon {l : List Char} (h : ':' ∈ l) : digitsU l = none := by
  cases hd : digitsU l with
  | none => rfl
  | some v =>
    exfalso
    unfold digitsU at hd
    cases l with
    | nil => simp at h
    | cons c rest =>
      dsimp only at hd
      by_cases hc : c.isDigit = true
      · rw [hc] at hd
        simp only [if_true] at hd
        rcases List.mem_cons.1 h with he | hm
        · rw [← he] at hc; exact absurd hc (by decide)
        · rcases digitsUGo_chars hd ':' hm with h1 | h1
          · exact absurd h1 (by decide)
          · exact absurd h1 (by decide)
      · rw [Bool.not_eq_true] at hc
        rw [hc] at hd
        simp at hd

theorem digitsU_all_digits {l : List Char} (hne : l ≠ [])
    (h : ∀ c ∈ l, c.isDigit = true) : digitsU l = some (digitsVal l) := by
  cases l with
  | nil => exact absurd rfl hne
  | cons c rest =>
    unfold digitsU
    dsimp only
    rw [h c (List.mem_cons_self _ _)]
    simp only [if_true]
    rw [digitsUGo_all_digits rest (digitVal c) (fun x hx => h x (List.mem_cons_of_mem _ hx))]
    unfold digitsVal
    simp

theorem pyIntParse_digits {l : List Char} (hne : l ≠ [])
    (h : ∀ c ∈ l, c.isDigit = true) : pyIntParse l = some (Int.ofNat (digitsVal l)) := by
  unfold pyIntParse
  rw [pyStrip_of_digits h]
  cases l with
  | nil => exact absurd rfl hne
  | cons c rest =>
    dsimp only
    have hc : c.isDigit = true := h c (List.mem_cons_self _ _)
    have h1 : c ≠ '+' := fun he => by rw [he] at hc; exact absurd hc (by decide)
    have h2 : c ≠ '-' := fun he => by rw [he] at hc; exact absurd hc (by decide)
    rw [if_neg h1, if_neg h2, digitsU_all_digits (by simp) h]
    rfl

theorem pyIntParse_colon {l : List Char} (h : ':' ∈ l) : pyIntParse l = none := by
  unfold pyIntParse
  have hmem : ':' ∈ pyStrip l := mem_pyStrip_of_mem h (by decide)
  cases hs : pyStrip l with
  | nil => rfl
  | cons c rest =>
    rw [hs] at hmem
    dsimp only
    by_cases h1 : c = '+'
    · rw [if_pos h1]
      have : ':' ∈ rest := by
        rcases List.mem_cons.1 hmem with he | hm
        · rw [h1] at he; exact absurd he (by decide)
        · exact hm
      rw [digitsU_colon this]
      rfl
    · rw [if_neg h1]
      by_cases h2 : c = '-'
      · rw [if_pos h2]
        have : ':' ∈ rest := by
          rcases List.mem_cons.1 hmem with he | hm
          · rw [h2] at he; exact absurd he (by decide)
          · exact hm
        rw [digitsU_colon this]
        rfl
      · rw [if_neg h2, digitsU_colon hmem]
        rfl

/-! ## Character range facts -/

theorem char_isDigit_bounds {c : Char} (h : c.isDigit = true) :
    48 ≤ c.toNat ∧ c.toNat ≤ 57 := by
  unfold Char.isDigit at h
  rw [Bool.and_eq_true, decide_eq_true_eq, decide_eq_true_eq] at h
  obtain ⟨h1, h2⟩ := h
  rw [ge_iff_le, UInt32.le_def, BitVec.le_def] at h1
  rw [UInt32.le_def, BitVec.le_def] at h2
  exact ⟨h1, h2⟩

theorem digitVal_lt {c : Char} (h : c.isDigit = true) : digitVal c < 10 := by
  have := char_isDigit_bounds h
  unfold digitVal
  omega

theorem char_le_iff_toNat {a b : Char} : a ≤ b ↔ a.toNat ≤ b.toNat := by
  rw [Char.le_def, UInt32.le_def, BitVec.le_def]
  exact Iff.rfl

theorem hexDigitVal_lt {c : Char} (h : isHexDigitChar c = true) : hexDigitVal c < 16 := by
  unfold isHexDigitChar at h
  unfold hexDigitVal
  by_cases hd : c.isDigit = true
  · rw [if_pos hd]
    have := char_isDigit_bounds hd
    omega
  · rw [Bool.not_eq_true] at hd
    rw [if_neg (by rw [hd]; simp)]
    rw [hd] at h
    simp only [Bool.false_or, Bool.or_eq_true, Bool.and_eq_true, decide_eq_true_eq] at h
    have e1 : 'a'.toNat = 97 := rfl
    have e2 : 'f'.toNat = 102 := rfl
    have e3 : 'A'.toNat = 65 := rfl
    have e4 : 'F'.toNat = 70 := rfl
    rcases h with ⟨h1, h2⟩ | ⟨h1, h2⟩
    · rw [char_le_iff_toNat] at h1 h2
      rw [if_pos (by rw [char_le_iff_toNat]; omega)]
      omega
    · rw [char_le_iff_toNat] at h1 h2
      rw [if_neg (by rw [char_le_iff_toNat]; omega)]
      omega

/-! ## Failure of the IPv4 octet machinery on colon-bearing strings -/

theorem parseOctet_colon {p : List Char} (h : ':' ∈ p) : parseOctet p = none := by
  unfold parseOctet
  have hne : p.isEmpty = false := by
    cases p with
    | nil => simp at h
    | cons a t => rfl
  rw [if_neg (by rw [hne]; simp)]
  have hall : p.all Char.isDigit = false := by
    rw [List.all_eq_false]
    refine ⟨':', h, ?_⟩
    decide
  rw [if_pos (by unfold pyIsAsciiDigits; rw [hall, Bool.and_false]; rfl)]

theorem v4IntFromString_colon {s : List Char} (h : ':' ∈ s) : v4IntFromString s = none := by
  unfold v4IntFromString
  have hne : ¬(s.isEmpty = true) := by
    cases s with
    | nil => simp at h
    | cons a t => simp
  rw [if_neg hne]
  obtain ⟨p, hpmem, hpcolon⟩ := mem_part_of_mem h (show (':' : Char) ≠ '.' by decide)
  split
  · next o1 o2 o3 o4 heq =>
    rw [heq] at hpmem
    have hnone : parseOctet p = none := parseOctet_colon hpcolon
    simp only [List.mem_cons, List.not_mem_nil, or_false] at hpmem
    rcases hpmem with rfl | rfl | rfl | rfl
    · rw [hnone]
    · rw [hnone]
      cases parseOctet o1 <;> rfl
    · rw [hnone]
      cases parseOctet o1 <;> cases parseOctet o2 <;> rfl
    · rw [hnone]
      cases parseOctet o1 <;> cases parseOctet o2 <;> cases parseOctet o3 <;> rfl
  · rfl

theorem v4AddressParse_colon {s : List Char} (h : ':' ∈ s) : v4AddressParse s = none := by
  unfold v4AddressParse
  by_cases hsl : '/' ∈ s
  · rw [if_pos hsl]
  · rw [if_neg hsl]
    exact v4IntFromString_colon h

/-! ## Success of the report construction on IPv4 renderings -/

theorem dot_not_mem_pyNatRepr (n : Nat) : '.' ∉ pyNatRepr n :=
  not_mem_of_all_digits (pyNatRepr_digits n) (by decide)

theorem v4ReprS_eq (ip : Nat) :
    v4ReprS ip = pyNatRepr ((ip >>> 24) % 256) ++
      '.' :: (pyNatRepr ((ip >>> 16) % 256) ++
        '.' :: (pyNatRepr ((ip >>> 8) % 256) ++ '.' :: pyNatRepr (ip % 256))) := by
  unfold v4ReprS v4Bytes
  simp only [List.map_cons, List.map_nil]
  rw [intercalate_cons_cons, intercalate_cons_cons, intercalate_cons_cons]
  simp [List.intercalate, List.append_assoc]

theorem pySplit_v4ReprS (ip : Nat) :
    pySplit '.' (v4ReprS ip) =
      [pyNatRepr ((ip >>> 24) % 256), pyNatRepr ((ip >>> 16) % 256),
       pyNatRepr ((ip >>> 8) % 256), pyNatRepr (ip % 256)] := by
  rw [v4ReprS_eq]
  rw [pySplit_sep_cons (dot_not_mem_pyNatRepr _),
    pySplit_sep_cons (dot_not_mem_pyNatRepr _),
    pySplit_sep_cons (dot_not_mem_pyNatRepr _),
    pySplit_of_not_mem (dot_not_mem_pyNatRepr _)]

theorem pyIntParse_pyNatRepr (n : Nat) : pyIntParse (pyNatRepr n) = some (Int.ofNat n) := by
  rw [pyIntParse_digits (pyNatRepr_ne_nil n) (pyNatRepr_digits n), pyNatRepr_digitsVal]

theorem getNetworkClass_v4ReprS (ip : Nat) :
    ∃ cls, getNetworkClass (v4ReprS ip) = some cls := by
  unfold getNetworkClass
  rw [pySplit_v4ReprS]
  dsimp only
  rw [pyIntParse_pyNatRepr]
  exact ⟨_, rfl⟩

theorem binaryOctets_v4ReprS (ip : Nat) :
    ∃ b, binaryOctets (v4ReprS ip) = some b := by
  unfold binaryOctets
  rw [pySplit_v4ReprS]
  simp only [optionMapList, pyIntParse_pyNatRepr, Option.map_some']
  exact ⟨_, rfl⟩

theorem buildReport_some (s : List Char) (showAll : Bool) (n : Net4) :
    ∃ r, buildReport s showAll n = some r := by
  unfold buildReport
  dsimp only
  obtain ⟨cls, hcls⟩ := getNetworkClass_v4ReprS n.addr
  obtain ⟨nb, hnb⟩ := binaryOctets_v4ReprS n.addr
  obtain ⟨mb, hmb⟩ := binaryOctets_v4ReprS (v4Netmask n)
  rw [hcls, hnb, hmb]
  exact ⟨_, rfl⟩

theorem getIpRange_v4 {s : List Char} {showAll : Bool} {n : Net4}
    (h : pyIpNetwork s false = some (.v4 n)) :
    ∃ r, getIpRange s showAll = .ok r ∧ buildReport s showAll n = some r := by
  unfold getIpRange
  rw [h]
  dsimp only
  obtain ⟨r, hr⟩ := buildReport_some s showAll n
  rw [hr]
  exact ⟨r, rfl, rfl⟩

/-! ## Facts about the IPv6 rendering -/

theorem hexReprAux_chars : ∀ fuel n, ∀ c ∈ hexReprAux fuel n, isHexDigitChar c = true := by
  intro fuel
  induction fuel with
  | zero => intro n c hc; simp [hexReprAux] at hc
  | succ f ih =>
    intro n c hc
    unfold hexReprAux at hc
    by_cases h0 : n = 0
    · rw [if_pos h0] at hc; simp at hc
    · rw [if_neg h0] at hc
      rcases List.mem_append.1 hc with h | h
      · exact ih _ _ h
      · have h16 : n % 16 < 16 := Nat.mod_lt _ (by norm_num)
        have he := List.mem_singleton.1 h
        subst he
        by_cases hlt : n % 16 < 10
        · rw [if_pos hlt]
          interval_cases h : n % 16 <;> decide
        · rw [if_neg hlt]
          push_neg at hlt
          interval_cases h : n % 16 <;> first | omega | decide

theorem hexRepr_chars (n : Nat) : ∀ c ∈ hexRepr n, isHexDigitChar c = true := by
  unfold hexRepr
  by_cases h : n = 0
  · rw [if_pos h]; intro c hc; simp at hc; subst hc; decide
  · rw [if_neg h]; exact hexReprAux_chars (n + 1) n

theorem mem_compressHextets {l : List (List Char)} {x : List Char}
    (h : x ∈ compressHextets l) : x ∈ l ∨ x = [] := by
  unfold compressHextets at h
  by_cases hb : (bestZeroRun l).2 > 1
  · rw [if_pos hb] at h
    dsimp only at h
    set hx := if (bestZeroRun l).1 + (bestZeroRun l).2 = l.length then l ++ [[]] else l with hhx
    have hmemhx : ∀ y, y ∈ hx → y ∈ l ∨ y = [] := by
      intro y hy
      rw [hhx] at hy
      by_cases hc : (bestZeroRun l).1 + (bestZeroRun l).2 = l.length
      · rw [if_pos hc] at hy
        rcases List.mem_append.1 hy with h1 | h1
        · exact Or.inl h1
        · exact Or.inr (List.mem_singleton.1 h1)
      · rw [if_neg hc] at hy
        exact Or.inl hy
    have hmemhx2 : x ∈ List.take (bestZeroRun l).1 hx ++ [[]] ++
        List.drop ((bestZeroRun l).1 + (bestZeroRun l).2) hx → x ∈ l ∨ x = [] := by
      intro hy
      rcases List.mem_append.1 hy with h2 | h2
      · rcases List.mem_append.1 h2 with h3 | h3
        · exact hmemhx x (List.mem_of_mem_take h3)
        · exact Or.inr (List.mem_singleton.1 h3)
      · exact hmemhx x (List.mem_of_mem_drop h2)
    by_cases hz : (bestZeroRun l).1 = 0
    · rw [if_pos hz] at h
      rcases List.mem_cons.1 h with h1 | h1
      · exact Or.inr h1
      · exact hmemhx2 h1
    · rw [if_neg hz] at h
      exact hmemhx2 h
  · rw [if_neg hb] at h
    exact Or.inl h

theorem compressHextets_length {l : List (List Char)} (hl : l.length = 8) :
    2 ≤ (compressHextets l).length := by
  unfold compressHextets
  by_cases hb : (bestZeroRun l).2 > 1
  · rw [if_pos hb]
    dsimp only
    set hx := if (bestZeroRun l).1 + (bestZeroRun l).2 = l.length then l ++ [[]] else l with hhx
    have hxlen : 8 ≤ hx.length := by
      rw [hhx]
      by_cases hc : (bestZeroRun l).1 + (bestZeroRun l).2 = l.length
      · rw [if_pos hc, List.length_append]; omega
      · rw [if_neg hc]; omega
    by_cases hz : (bestZeroRun l).1 = 0
    · rw [if_pos hz]
      simp only [List.length_cons, List.length_append, List.length_singleton]
      omega
    · rw [if_neg hz]
      simp only [List.length_append, List.length_take, List.length_singleton]
      have : 1 ≤ min (bestZeroRun l).1 hx.length := by
        have h1 : 1 ≤ (bestZeroRun l).1 := by omega
        have h2 : 1 ≤ hx.length := by omega
        omega
      omega
  · rw [if_neg hb]
    omega

theorem v6Hextets_length (ip : Nat) : (v6Hextets ip).length = 8 := by
  unfold v6Hextets
  simp

theorem mem_v6Hextets {ip : Nat} {x : List Char} (h : x ∈ v6Hextets ip) :
    ∃ m, x = hexRepr m := by
  unfold v6Hextets at h
  obtain ⟨j, _, hj⟩ := List.mem_map.1 h
  exact ⟨_, hj.symm⟩

theorem colon_mem_v6CompressedRepr (ip : Nat) : ':' ∈ v6CompressedRepr ip := by
  unfold v6CompressedRepr
  have h2 := compressHextets_length (v6Hextets_length ip)
  obtain ⟨a, t, ha⟩ := List.exists_cons_of_ne_nil
    (show compressHextets (v6Hextets ip) ≠ [] by
      intro hnil; rw [hnil] at h2; simp at h2)
  cases t with
  | nil => rw [ha] at h2; simp at h2
  | cons b t2 =>
    rw [ha, intercalate_cons_cons]
    apply List.mem_append.2
    apply Or.inl
    apply List.mem_append.2
    apply Or.inr
    exact List.mem_singleton.2 rfl

theorem dot_not_mem_v6CompressedRepr (ip : Nat) : '.' ∉ v6CompressedRepr ip := by
  intro h
  unfold v6CompressedRepr at h
  rcases mem_intercalate h with h1 | ⟨p, hp, hdp⟩
  · simp at h1
  · rcases mem_compressHextets hp with h2 | h2
    · obtain ⟨m, hm⟩ := mem_v6Hextets h2
      rw [hm] at hdp
      have := hexRepr_chars m '.' hdp
      exact absurd this (by decide)
    · rw [h2] at hdp
      simp at hdp

theorem pySplit_dot_v6ReprS (ip : Nat) (sc : Option (List Char)) :
    ∃ h t, pySplit '.' (v6ReprS ip sc) = (v6CompressedRepr ip ++ h) :: t := by
  unfold v6ReprS
  obtain ⟨h, t, ht⟩ := List.exists_cons_of_ne_nil
    (pySplit_ne_nil '.' (match sc with | some z => '%' :: z | none => []))
  exact ⟨h, t, pySplit_append_left (dot_not_mem_v6CompressedRepr ip) ht⟩

theorem binaryOctets_v6ReprS (ip : Nat) (sc : Option (List Char)) :
    binaryOctets (v6ReprS ip sc) = none := by
  obtain ⟨h, t, ht⟩ := pySplit_dot_v6ReprS ip sc
  unfold binaryOctets
  rw [ht]
  have hcolon : ':' ∈ v6CompressedRepr ip ++ h :=
    List.mem_append.2 (Or.inl (colon_mem_v6CompressedRepr ip))
  unfold optionMapList
  rw [pyIntParse_colon hcolon]
  rfl

theorem getNetworkClass_v6ReprS (ip : Nat) (sc : Option (List Char)) :
    getNetworkClass (v6ReprS ip sc) = none := by
  obtain ⟨h, t, ht⟩ := pySplit_dot_v6ReprS ip sc
  unfold getNetworkClass
  rw [ht]
  dsimp only
  rw [pyIntParse_colon (List.mem_append.2 (Or.inl (colon_mem_v6CompressedRepr ip)))]
  rfl

theorem mkSingleDoc_v6 (s : List Char) (ip : Nat) (sc : Option (List Char)) :
    mkSingleDoc s (.v6 ip sc) = none := by
  unfold mkSingleDoc
  dsimp only
  rw [binaryOctets_v6ReprS]

/-! ## Facts about the IPv6 parse -/

theorem mem_pyPartition_left {c x : Char} {s : List Char}
    (h : x ∈ (pyPartition c s).1) : x ∈ s := by
  induction s with
  | nil => simp [pyPartition] at h
  | cons y ys ih =>
    unfold pyPartition at h
    by_cases hy : y = c
    · rw [if_pos hy] at h
      simp at h
    · rw [if_neg hy] at h
      dsimp only at h
      rcases List.mem_cons.1 h with he | hm
      · exact he ▸ List.mem_cons_self _ _
      · exact List.mem_cons_of_mem _ (ih hm)

theorem v6IntFromString_colon {s : List Char} {n : Nat}
    (h : v6IntFromString s = some n) : ':' ∈ s := by
  by_contra hc
  unfold v6IntFromString at h
  dsimp only at h
  by_cases he : s.isEmpty = true
  · rw [if_pos he] at h
    exact Option.noConfusion h
  · rw [if_neg he, pySplit_of_not_mem hc] at h
    rw [if_pos (by simp)] at h
    exact Option.noConfusion h

theorem v6AddressParse_colon {s : List Char} {p : Nat × Option (List Char)}
    (h : v6AddressParse s = some p) : ':' ∈ s := by
  unfold v6AddressParse at h
  by_cases hsl : '/' ∈ s
  · rw [if_pos hsl] at h
    exact Option.noConfusion h
  · rw [if_neg hsl] at h
    cases hsc : splitScopeId s with
    | none => rw [hsc] at h; exact Option.noConfusion h
    | some q =>
      rw [hsc] at h
      dsimp only at h
      cases hv : v6IntFromString q.1 with
      | none => rw [hv] at h; exact Option.noConfusion h
      | some m =>
        have hcolon : ':' ∈ q.1 := v6IntFromString_colon hv
        unfold splitScopeId at hsc
        dsimp only at hsc
        split at hsc
        · simp only [Option.some.injEq] at hsc
          have hq1 : q.1 = (pyPartition '%' s).1 := by rw [← hsc]
          exact mem_pyPartition_left (hq1 ▸ hcolon)
        · split at hsc
          · exact Option.noConfusion hsc
          · simp only [Option.some.injEq] at hsc
            have hq1 : q.1 = (pyPartition '%' s).1 := by rw [← hsc]
            exact mem_pyPartition_left (hq1 ▸ hcolon)

theorem v6AddressParse_no_slash {s : List Char} {p : Nat × Option (List Char)}
    (h : v6AddressParse s = some p) : '/' ∉ s := by
  intro hsl
  unfold v6AddressParse at h
  rw [if_pos hsl] at h
  exact Option.noConfusion h

theorem hexVal_lt {l : List Char} (hhex : ∀ c ∈ l, isHexDigitChar c = true) :
    hexVal l < 16 ^ l.length := by
  suffices hgen : ∀ (l : List Char), (∀ c ∈ l, isHexDigitChar c = true) → ∀ acc,
      l.foldl (fun a c => 16 * a + hexDigitVal c) acc < 16 ^ l.length * (acc + 1) by
    have := hgen l hhex 0
    unfold hexVal
    omega
  intro l
  induction l with
  | nil => intro _ acc; simp
  | cons c t ih =>
    intro hl acc
    have hc : hexDigitVal c < 16 := hexDigitVal_lt (hl c (List.mem_cons_self _ _))
    have := ih (fun x hx => hl x (List.mem_cons_of_mem _ hx)) (16 * acc + hexDigitVal c)
    simp only [List.foldl_cons, List.length_cons]
    calc List.foldl (fun a c => 16 * a + hexDigitVal c) (16 * acc + hexDigitVal c) t
        < 16 ^ t.length * (16 * acc + hexDigitVal c + 1) := this
    _ ≤ 16 ^ t.length * (16 * (acc + 1)) := by
        apply Nat.mul_le_mul_left
        omega
    _ = 16 ^ (t.length + 1) * (acc + 1) := by ring
    _ = 16 ^ t.length.succ * (acc + 1) := rfl

theorem parseHextet_lt {s : List Char} {v : Nat} (h : parseHextet s = some v) : v < 2 ^ 16 := by
  unfold parseHextet at h
  split at h
  · exact Option.noConfusion h
  · split at h
    · exact Option.noConfusion h
    · split at h
      · exact Option.noConfusion h
      · next hhex hlen _ =>
        simp only [Option.some.injEq] at h
        subst h
        have halltrue : s.all isHexDigitChar = true := by
          cases hb : s.all isHexDigitChar with
          | false => exact absurd (by rw [hb]; rfl) hhex
          | true => rfl
        have hall : ∀ c ∈ s, isHexDigitChar c = true :=
          fun c hc => List.all_eq_true.1 halltrue c hc
        have h1 := hexVal_lt hall
        have h2 : (16 : Nat) ^ s.length ≤ 16 ^ 4 := Nat.pow_le_pow_right (by norm_num) (by omega)
        calc hexVal s < 16 ^ s.length := h1
        _ ≤ 16 ^ 4 := h2
        _ = 2 ^ 16 := by norm_num

theorem foldHextets_lt : ∀ (l : List (List Char)) (acc k : Nat), acc < 2 ^ k →
    ∀ v, foldHextets acc l = some v → v < 2 ^ (16 * l.length + k) := by
  intro l
  induction l with
  | nil =>
    intro acc k hacc v hv
    unfold foldHextets at hv
    simp only [Option.some.injEq] at hv
    subst hv
    simpa using hacc
  | cons h t ih =>
    intro acc k hacc v hv
    unfold foldHextets at hv
    cases hp : parseHextet h with
    | none => rw [hp] at hv; exact Option.noConfusion hv
    | some x =>
      rw [hp] at hv
      dsimp only at hv
      have hx : x < 2 ^ 16 := parseHextet_lt hp
      have hbound : (acc <<< 16) ||| x < 2 ^ (16 + k) := Nat.append_lt hx hacc
      have := ih _ _ hbound v hv
      have harith : 16 * (h :: t).length + k = 16 * t.length + (16 + k) := by
        simp only [List.length_cons]
        ring
      rw [harith]
      exact this

theorem foldHextets_chain_lt {parts : List (List Char)} {hi lo n hiV : Nat}
    (hle : hi + lo ≤ 7)
    (h1 : foldHextets 0 (parts.take hi) = some hiV)
    (h2 : foldHextets (hiV <<< (16 * (8 - (hi + lo)))) (lastSlice lo parts) = some n) :
    n < 2 ^ 128 := by
  have b1 := foldHextets_lt (parts.take hi) 0 0 (by norm_num) hiV h1
  have ht : (parts.take hi).length ≤ hi := by
    rw [List.length_take]
    omega
  have b1' : hiV < 2 ^ (16 * hi) :=
    lt_of_lt_of_le b1 (Nat.pow_le_pow_right (by norm_num) (by omega))
  have b2 : hiV <<< (16 * (8 - (hi + lo))) < 2 ^ (16 * hi + 16 * (8 - (hi + lo))) :=
    Nat.shiftLeft_lt b1'
  have b3 := foldHextets_lt (lastSlice lo parts) _ _ b2 n h2
  have hL : (lastSlice lo parts).length ≤ lo := by
    unfold lastSlice
    rw [List.length_drop]
    omega
  refine lt_of_lt_of_le b3 (Nat.pow_le_pow_right (by norm_num) ?_)
  omega

theorem v6ArmSkip_lt {parts : List (List Char)} {hi lo n : Nat} {C1 C2 : Prop}
    [Decidable C1] [Decidable C2]
    (h : (if C1 then none
          else if C2 then none
          else if hi + lo > 7 then none
          else match foldHextets 0 (parts.take hi) with
               | none => none
               | some hiV =>
                 foldHextets (hiV <<< (16 * (8 - (hi + lo)))) (lastSlice lo parts)) =
        some n) :
    n < 2 ^ 128 := by
  split at h
  · exact Option.noConfusion h
  · split at h
    · exact Option.noConfusion h
    · split at h
      · exact Option.noConfusion h
      · next hle =>
        split at h
        · exact Option.noConfusion h
        · next hiV hfold => exact foldHextets_chain_lt (by omega) hfold h

theorem v6IntFromString_lt {s : List Char} {n : Nat}
    (h : v6IntFromString s = some n) : n < 2 ^ 128 := by
  unfold v6IntFromString at h
  dsimp only at h
  split at h
  · exact Option.noConfusion h
  · split at h
    · exact Option.noConfusion h
    · split at h
      · exact Option.noConfusion h
      · next parts heq =>
        split at h
        · exact Option.noConfusion h
        · split at h
          · -- no double colon: exactly eight parts
            split at h
            · exact Option.noConfusion h
            · split at h
              · exact Option.noConfusion h
              · split at h
                · exact Option.noConfusion h
                · next h8 _ _ =>
                  have hp8 : parts.length = 8 := by omega
                  have := foldHextets_lt parts 0 0 (by norm_num) n h
                  rw [hp8] at this
                  exact lt_of_lt_of_le this (Nat.pow_le_pow_right (by norm_num) (by omega))
          · -- one double colon
            exact v6ArmSkip_lt h
          · exact Option.noConfusion h

theorem mem_of_mem_pySplit {c : Char} : ∀ {l : List Char} {p : List Char} {x : Char},
    p ∈ pySplit c l → x ∈ p → x ∈ l := by
  intro l
  induction l with
  | nil =>
    intro p x hp hx
    simp [pySplit] at hp
    subst hp
    simp at hx
  | cons y ys ih =>
    intro p x hp hx
    obtain ⟨h, t, hy⟩ := List.exists_cons_of_ne_nil (pySplit_ne_nil c ys)
    unfold pySplit at hp
    rw [hy] at hp
    dsimp only at hp
    by_cases hyc : y = c
    · rw [if_pos hyc] at hp
      rcases List.mem_cons.1 hp with h1 | h1
      · rw [h1] at hx; simp at hx
      · exact List.mem_cons_of_mem _ (ih (hy ▸ h1) hx)
    · rw [if_neg hyc] at hp
      rcases List.mem_cons.1 hp with h1 | h1
      · rw [h1] at hx
        rcases List.mem_cons.1 hx with h2 | h2
        · exact h2 ▸ List.mem_cons_self _ _
        · exact List.mem_cons_of_mem _ (ih (hy ▸ List.mem_cons_self h t) h2)
      · exact List.mem_cons_of_mem _ (ih (hy ▸ List.mem_cons_of_mem h h1) hx)

theorem splitScopeId_fst {s : List Char} {q : List Char × Option (List Char)}
    (h : splitScopeId s = some q) : q.1 = (pyPartition '%' s).1 := by
  unfold splitScopeId at h
  dsimp only at h
  split at h
  · simp only [Option.some.injEq] at h
    rw [← h]
  · split at h
    · exact Option.noConfusion h
    · simp only [Option.some.injEq] at h
      rw [← h]

theorem v6IntFromString_no_colon {a : List Char} (h : ':' ∉ a) :
    v6IntFromString a = none := by
  unfold v6IntFromString
  dsimp only
  by_cases he : a.isEmpty = true
  · rw [if_pos he]
  · rw [if_neg he, pySplit_of_not_mem h, if_pos (by simp)]

theorem v6AddressParse_no_colon {a : List Char} (h : ':' ∉ a) :
    v6AddressParse a = none := by
  unfold v6AddressParse
  by_cases hsl : '/' ∈ a
  · rw [if_pos hsl]
  · rw [if_neg hsl]
    cases hsc : splitScopeId a with
    | none => rfl
    | some q =>
      dsimp only
      have hq1 := splitScopeId_fst hsc
      have hnc : ':' ∉ q.1 := by
        rw [hq1]
        intro hmem
        exact h (mem_pyPartition_left hmem)
      rw [v6IntFromString_no_colon hnc]
      rfl

theorem v6NetworkParse_no_colon {s : List Char} {strict : Bool} (h : ':' ∉ s) :
    v6NetworkParse s strict = none := by
  unfold v6NetworkParse
  split
  · next a heq =>
    have ha : ':' ∉ a := fun hm =>
      h (mem_of_mem_pySplit (heq ▸ List.mem_cons_self a []) hm)
    rw [v6AddressParse_no_colon ha]
  · next a m heq =>
    have ha : ':' ∉ a := fun hm =>
      h (mem_of_mem_pySplit (heq ▸ List.mem_cons_self a [m]) hm)
    rw [v6AddressParse_no_colon ha]
  · rfl

theorem v4NetworkParse_none_of_colon {s : List Char} {strict : Bool}
    (hns : '/' ∉ s) (hc : ':' ∈ s) : v4NetworkParse s strict = none := by
  unfold v4NetworkParse
  rw [pySplit_of_not_mem hns]
  dsimp only
  rw [v4AddressParse_colon hc]

theorem v6AddressParse_lt {s : List Char} {ip : Nat} {sc : Option (List Char)}
    (h : v6AddressParse s = some (ip, sc)) : ip < 2 ^ 128 := by
  unfold v6AddressParse at h
  split at h
  · exact Option.noConfusion h
  · split at h
    · exact Option.noConfusion h
    · next a sc2 hq =>
      cases hv : v6IntFromString a with
      | none => rw [hv] at h; exact Option.noConfusion h
      | some m =>
        rw [hv] at h
        simp only [Option.map_some', Option.some.injEq, Prod.mk.injEq] at h
        obtain ⟨h1, _⟩ := h
        exact h1 ▸ v6IntFromString_lt hv

theorem v6IpIntFromPlen_128 : v6IpIntFromPlen 128 = 2 ^ 128 - 1 := by
  unfold v6IpIntFromPlen
  rw [Nat.shiftRight_eq_div_pow, Nat.div_eq_of_lt (by norm_num), Nat.xor_zero]

theorem v6NetworkParse_of_address {s : List Char} {ip : Nat} {sc : Option (List Char)}
    (h : v6AddressParse s = some (ip, sc)) :
    v6NetworkParse s false = some ⟨ip, sc, 128⟩ := by
  have hns := v6AddressParse_no_slash h
  have hlt := v6AddressParse_lt h
  unfold v6NetworkParse
  rw [pySplit_of_not_mem hns]
  dsimp only
  rw [h]
  dsimp only
  unfold v6NetFinish
  dsimp only
  rw [v6IpIntFromPlen_128, land_two_pow_sub_one, Nat.mod_eq_of_lt hlt]
  rw [if_neg (by intro hcon; exact hcon rfl)]

theorem pyIpAddress_v6 {s : List Char} {ip : Nat} {sc : Option (List Char)}
    (h : v6AddressParse s = some (ip, sc)) : pyIpAddress s = some (.v6 ip sc) := by
  have hcolon := v6AddressParse_colon h
  unfold pyIpAddress
  rw [v4AddressParse_colon hcolon]
  dsimp only
  rw [h]
  rfl

theorem pyIpNetwork_v6_of_address {s : List Char} {ip : Nat} {sc : Option (List Char)}
    (h : v6AddressParse s = some (ip, sc)) :
    pyIpNetwork s false = some (.v6 ⟨ip, sc, 128⟩) := by
  have hcolon := v6AddressParse_colon h
  have hns := v6AddressParse_no_slash h
  unfold pyIpNetwork
  rw [v4NetworkParse_none_of_colon hns hcolon]
  dsimp only
  rw [v6NetworkParse_of_address h]
  rfl

/-! ## Facts about the hosts list and the usable range -/

theorem range'_getLast? {s m : Nat} (h : 0 < m) :
    (List.range' s m).getLast? = some (s + (m - 1)) := by
  obtain ⟨m', rfl⟩ : ∃ m', m = m' + 1 := ⟨m - 1, by omega⟩
  rw [List.range'_concat, List.getLast?_concat]
  simp

theorem Net4Valid.addr_lt {n : Net4} (h : Net4Valid n) : n.addr < 2 ^ 32 := by
  have hmod : n.addr % 2 ^ 32 = n.addr := by
    apply Nat.eq_of_testBit_eq
    intro i
    rw [Nat.testBit_mod_two_pow]
    by_cases hi : i < 32
    · simp [hi]
    · have hbit : n.addr.testBit i = false := by
        conv_lhs => rw [← h.2]
        unfold v4Netmask
        rw [Nat.testBit_land, testBit_v4Netmask _ _ h.1]
        have hd : decide (32 - n.plen ≤ i ∧ i < 32) = false := by
          simp only [decide_eq_false_iff_not]
          omega
        rw [hd, Bool.and_false]
      simp [hi, hbit]
  calc n.addr = n.addr % 2 ^ 32 := hmod.symm
  _ < 2 ^ 32 := Nat.mod_lt _ (by norm_num)

theorem four_le_pow {p : Nat} (hp : p ≤ 30) : 4 ≤ 2 ^ (32 - p) := by
  have h := Nat.pow_le_pow_right (show 0 < 2 by norm_num) (show 2 ≤ 32 - p by omega)
  simpa using h

theorem v4Hosts_eq {n : Net4} (hv : Net4Valid n) (hp : n.plen ≤ 30) :
    v4Hosts n = List.range' (n.addr + 1) (2 ^ (32 - n.plen) - 2) := by
  unfold v4Hosts
  rw [if_neg (by omega), if_neg (by omega)]
  congr 1
  rw [v4Broadcast_eq hv]
  have h4 := four_le_pow hp
  omega

theorem pow_sub_two_pos {n : Net4} (hp : n.plen ≤ 30) : 0 < 2 ^ (32 - n.plen) - 2 := by
  have h4 := four_le_pow hp
  omega

theorem v4Hosts_head {n : Net4} (hv : Net4Valid n) (hp : n.plen ≤ 30) :
    (v4Hosts n).head? = some (n.addr + 1) := by
  rw [v4Hosts_eq hv hp, List.head?_range', if_neg (by have := pow_sub_two_pos hp; omega)]

theorem v4Hosts_getLast {n : Net4} (hv : Net4Valid n) (hp : n.plen ≤ 30) :
    (v4Hosts n).getLast? = some (v4Broadcast n - 1) := by
  rw [v4Hosts_eq hv hp, range'_getLast? (pow_sub_two_pos hp), v4Broadcast_eq hv]
  have h4 := four_le_pow hp
  congr 1
  omega

theorem v4Hosts_length {n : Net4} (hv : Net4Valid n) (hp : n.plen ≤ 30) :
    (v4Hosts n).length = 2 ^ (32 - n.plen) - 2 := by
  rw [v4Hosts_eq hv hp, List.length_range']

theorem lor_zero_eq (a : Nat) : a ||| 0 = a := by
  apply Nat.eq_of_testBit_eq
  intro i
  rw [Nat.testBit_lor, Nat.zero_testBit, Bool.or_false]

/-! ## The claims -/

/-- C1: for every valid CIDR block with prefix length p in [0,32], the
computed range follows the three-tier policy: totalAddresses = 2^(32-p);
for p=32 first = last = network and count 1; for p=31 first = network,
last = broadcast and count 2; for p ≤ 30 first = network+1,
last = broadcast-1 and count 2^(32-p) - 2; and get_ip_range_summary
reports the same usable figures. -/
theorem claim_C1_usable_range_policy (n : Net4) (hv : Net4Valid n) :
    v4NumAddresses n = 2 ^ (32 - n.plen) ∧
    (n.plen = 32 → (usableInfo n).totalUsable = 1 ∧
      (usableInfo n).firstUsable = v4ReprS n.addr ∧
      (usableInfo n).lastUsable = v4ReprS n.addr) ∧
    (n.plen = 31 → (usableInfo n).totalUsable = 2 ∧
      (usableInfo n).firstUsable = v4ReprS n.addr ∧
      (usableInfo n).lastUsable = v4ReprS (v4Broadcast n)) ∧
    (n.plen ≤ 30 → (usableInfo n).totalUsable = 2 ^ (32 - n.plen) - 2 ∧
      (usableInfo n).firstUsable = v4ReprS (n.addr + 1) ∧
      (usableInfo n).lastUsable = v4ReprS (v4Broadcast n - 1)) ∧
    (∀ s, pyIpNetwork s false = some (.v4 n) →
      ∃ r, getIpRangeSummary s = .ok r ∧
        r.usableHosts = (usableInfo n).totalUsable ∧
        r.usableRange =
          (usableInfo n).firstUsable ++ sLit " - " ++ (usableInfo n).lastUsable ∧
        r.totalAddresses = 2 ^ (32 - n.plen)) := by
  have htotal : v4NumAddresses n = 2 ^ (32 - n.plen) := v4NumAddresses_eq hv
  have husable : (n.plen = 32 →
        usableInfo n = ⟨1, v4ReprS n.addr, v4ReprS n.addr, [v4ReprS n.addr]⟩) ∧
      (n.plen = 31 → usableInfo n =
        ⟨2, v4ReprS n.addr, v4ReprS (v4Broadcast n),
         [v4ReprS n.addr, v4ReprS (v4Broadcast n)]⟩) ∧
      (n.plen ≤ 30 → usableInfo n =
        ⟨2 ^ (32 - n.plen) - 2, v4ReprS (n.addr + 1), v4ReprS (v4Broadcast n - 1),
         (v4Hosts n).map v4ReprS⟩) := by
    refine ⟨?_, ?_, ?_⟩
    · intro hp
      unfold usableInfo
      rw [if_pos hp]
    · intro hp
      unfold usableInfo
      rw [if_neg (by omega), if_pos hp]
    · intro hp
      unfold usableInfo
      rw [if_neg (by omega), if_neg (by omega)]
      dsimp only
      rw [v4Hosts_head hv hp, v4Hosts_getLast hv hp, htotal]
  refine ⟨htotal, ?_, ?_, ?_, ?_⟩
  · intro hp
    rw [husable.1 hp]
    exact ⟨rfl, rfl, rfl⟩
  · intro hp
    rw [husable.2.1 hp]
    exact ⟨rfl, rfl, rfl⟩
  · intro hp
    rw [husable.2.2 hp]
    exact ⟨rfl, rfl, rfl⟩
  · intro s hs
    unfold getIpRangeSummary
    rw [hs]
    dsimp only
    refine ⟨_, rfl, ?_, ?_, ?_⟩
    · by_cases h32 : n.plen = 32
      · rw [husable.1 h32]
        simp [h32]
      · by_cases h31 : n.plen = 31
        · rw [husable.2.1 h31]
          simp [h32, h31]
        · have hp : n.plen ≤ 30 := by have := hv.1; omega
          rw [husable.2.2 hp]
          simp [h32, h31, htotal]
    · by_cases h32 : n.plen = 32
      · rw [husable.1 h32]
        simp [h32]
      · by_cases h31 : n.plen = 31
        · rw [husable.2.1 h31]
          simp [h32, h31]
        · have hp : n.plen ≤ 30 := by have := hv.1; omega
          rw [husable.2.2 hp]
          simp only [List.headD_eq_head?, v4Hosts_head hv hp,
            List.getLastD_eq_getLast?, v4Hosts_getLast hv hp]
          simp [h32, h31]
    · exact htotal

/-- Witness for C1 at the block 192.168.1.0/24. -/
theorem claim_C1_witness :
    Net4Valid ⟨3232235776, 24⟩ ∧ v4NumAddresses ⟨3232235776, 24⟩ = 2 ^ 8 :=
  ⟨by decide, (claim_C1_usable_range_policy ⟨3232235776, 24⟩ (by decide)).1⟩

/-- C2: every network the parser accepts has all host bits cleared
(networkAddress AND hostmask = 0), its broadcast address is
networkAddress OR hostmask, and an address with stray host bits inside a
block is normalized rather than rejected: parsing 10.0.0.5/8 yields the
network 10.0.0.0/8 (network address int 167772160). -/
theorem claim_C2_host_bits_cleared (s : List Char) (strict : Bool) (n : Net4)
    (h : v4NetworkParse s strict = some n) :
    n.plen ≤ 32 ∧
    n.addr &&& v4Hostmask n = 0 ∧
    v4Broadcast n = n.addr ||| v4Hostmask n ∧
    v4NetworkParse (sLit "10.0.0.5/8") false = some ⟨167772160, 8⟩ := by
  have hv := v4NetworkParse_valid h
  exact ⟨hv.1, v4_addr_land_hostmask hv, rfl, by decide⟩

/-- Witness for C2 at the input 10.0.0.5/8. -/
theorem claim_C2_witness :
    v4NetworkParse (sLit "10.0.0.5/8") false = some ⟨167772160, 8⟩ ∧
    (167772160 : Nat) &&& v4Hostmask ⟨167772160, 8⟩ = 0 :=
  ⟨by decide,
   (claim_C2_host_bits_cleared (sLit "10.0.0.5/8") false ⟨167772160, 8⟩ (by decide)).2.1⟩

/-- C9: the next_network_address field is the dotted-quad rendering of
networkAddress + totalAddresses when the block does not reach the top of
the IPv4 space, and the string N/A exactly when the broadcast address is
255.255.255.255 (the addition overflows past ALL_ONES and the bare except
swallows the failure). -/
theorem claim_C9_next_network (n : Net4) (hv : Net4Valid n) :
    (v4Broadcast n ≠ 2 ^ 32 - 1 →
      nextNetworkStr n = v4ReprS (n.addr + v4NumAddresses n)) ∧
    (v4Broadcast n = 2 ^ 32 - 1 → nextNetworkStr n = sLit "N/A") := by
  have hb := v4Broadcast_eq hv
  have htotal := v4NumAddresses_eq hv
  have hlt := hv.addr_lt
  have hmod := hv.addr_mod
  have hpow : 0 < 2 ^ (32 - n.plen) := Nat.pos_pow_of_pos _ (by norm_num)
  have hdvd : 2 ^ (32 - n.plen) ∣ n.addr := Nat.dvd_of_mod_eq_zero hmod
  have haddr_le : n.addr ≤ 2 ^ 32 - 2 ^ (32 - n.plen) := by
    obtain ⟨q, hq⟩ := hdvd
    have h32eq : (2 : Nat) ^ 32 = 2 ^ (32 - n.plen) * 2 ^ n.plen := by
      rw [← pow_add]
      congr 1
      have := hv.1
      omega
    have hqlt : q < 2 ^ n.plen := by
      apply Nat.lt_of_mul_lt_mul_left (a := 2 ^ (32 - n.plen))
      rw [← hq, ← h32eq]
      exact hlt
    calc n.addr = 2 ^ (32 - n.plen) * q := hq
      _ ≤ 2 ^ (32 - n.plen) * (2 ^ n.plen - 1) := Nat.mul_le_mul_left _ (by omega)
      _ = 2 ^ 32 - 2 ^ (32 - n.plen) := by
          rw [Nat.mul_sub, Nat.mul_one, ← h32eq]
  have hple : 2 ^ (32 - n.plen) ≤ 2 ^ 32 :=
    Nat.pow_le_pow_right (by norm_num) (by omega)
  constructor
  · intro hne
    rw [hb] at hne
    unfold nextNetworkStr
    rw [htotal, if_neg (by omega)]
  · intro heq
    rw [hb] at heq
    unfold nextNetworkStr
    rw [htotal, if_pos (by omega)]

/-- Witness for C9 at the blocks 10.0.0.0/16 and 255.255.255.255/32. -/
theorem claim_C9_witness :
    nextNetworkStr ⟨167772160, 16⟩ = v4ReprS (167772160 + v4NumAddresses ⟨167772160, 16⟩) ∧
    nextNetworkStr ⟨4294967295, 32⟩ = sLit "N/A" :=
  ⟨(claim_C9_next_network ⟨167772160, 16⟩ (by decide)).1 (by decide),
   (claim_C9_next_network ⟨4294967295, 32⟩ (by decide)).2 (by decide)⟩

theorem usableIps_length {n : Net4} (hv : Net4Valid n) :
    (usableInfo n).usableIps.length = (usableInfo n).totalUsable := by
  unfold usableInfo
  by_cases h32 : n.plen = 32
  · rw [if_pos h32]
    rfl
  · by_cases h31 : n.plen = 31
    · rw [if_neg h32, if_pos h31]
      rfl
    · have hp : n.plen ≤ 30 := by have := hv.1; omega
      rw [if_neg h32, if_neg h31]
      dsimp only
      rw [List.length_map, v4Hosts_length hv hp, v4NumAddresses_eq hv]

/-- C5: for a block with prefix length below 30 the subnetting suggestions
are exactly the finer prefixes in (plen, min 30 (plen+4)], at most four of
them, with subnetCount 2^(p - plen) and hostsPerSubnet 2^(32-p) - 2; for
prefix length at least 30 the list is empty. -/
theorem claim_C5_subnet_suggestions (plen : Nat) :
    (30 ≤ plen → subnetPossibilities plen = []) ∧
    (plen < 30 →
      (subnetPossibilities plen).map SubnetPoss.newPlen =
        List.range' (plen + 1) (min 30 (plen + 4) - plen) ∧
      (subnetPossibilities plen).length ≤ 4 ∧
      ∀ e ∈ subnetPossibilities plen,
        plen < e.newPlen ∧ e.newPlen ≤ min 30 (plen + 4) ∧
        e.subnetCount = 2 ^ (e.newPlen - plen) ∧
        e.hostsPerSubnet = 2 ^ (32 - e.newPlen) - 2) := by
  constructor
  · intro h
    unfold subnetPossibilities
    rw [if_neg (by omega)]
  · intro h
    unfold subnetPossibilities
    rw [if_pos h]
    refine ⟨?_, ?_, ?_⟩
    · rw [List.map_map]
      have hfn : (SubnetPoss.newPlen ∘ fun np =>
          (⟨np, 2 ^ (np - plen), if np < 31 then 2 ^ (32 - np) - 2 else 2⟩ : SubnetPoss)) =
          fun np => np := rfl
      rw [hfn]
      have hlen : min 31 (plen + 5) - (plen + 1) = min 30 (plen + 4) - plen := by omega
      rw [List.map_id', hlen]
    · rw [List.length_map, List.length_range']
      omega
    · intro e he
      obtain ⟨np, hnp, rfl⟩ := List.mem_map.1 he
      obtain ⟨i, hi, rfl⟩ := List.mem_range'.1 hnp
      dsimp only
      refine ⟨by omega, by omega, rfl, ?_⟩
      rw [if_pos (by omega)]

/-- Witness for C5 at prefix lengths 30 and 24. -/
theorem claim_C5_witness :
    subnetPossibilities 30 = [] ∧ (subnetPossibilities 24).length ≤ 4 :=
  ⟨(claim_C5_subnet_suggestions 30).1 (by norm_num),
   ((claim_C5_subnet_suggestions 24).2 (by norm_num)).2.1⟩

/-- C6: the all_usable_ips listing policy.  With show_all_ips set and more
than 1000 usable addresses the listing holds the count, the first 50, the
last 50, and an evenly spaced sample of at most 20 addresses, never the
full list; at or below the threshold the full list appears exactly when
show_all_ips is set; otherwise the listing holds the count, a preview of
at most 10 addresses, and a note.  The report field of getIpRange is this
very listing. -/
theorem claim_C6_listing_policy (n : Net4) (hv : Net4Valid n) (showAll : Bool) :
    (showAll = true → (usableInfo n).totalUsable > 1000 →
      allUsableIps showAll (usableInfo n).totalUsable (usableInfo n).usableIps =
        .sampled (usableInfo n).totalUsable
          (sLit "网络过大，显示所有" ++ pyNatRepr (usableInfo n).totalUsable ++
            sLit "个IP可能影响性能")
          ((usableInfo n).usableIps.take 50)
          (lastSlice 50 (usableInfo n).usableIps)
          ((sliceStep (usableInfo n).usableIps
            (max 1 ((usableInfo n).totalUsable / 20))).take 20) ∧
      ((sliceStep (usableInfo n).usableIps
        (max 1 ((usableInfo n).totalUsable / 20))).take 20).length ≤ 20 ∧
      ((usableInfo n).usableIps.take 50).length ≤ 50 ∧
      (lastSlice 50 (usableInfo n).usableIps).length ≤ 50 ∧
      ∀ c l, allUsableIps showAll (usableInfo n).totalUsable (usableInfo n).usableIps ≠
        .full c l) ∧
    (showAll = true → (usableInfo n).totalUsable ≤ 1000 →
      allUsableIps showAll (usableInfo n).totalUsable (usableInfo n).usableIps =
        .full (usableInfo n).totalUsable (usableInfo n).usableIps) ∧
    (showAll = false →
      allUsableIps showAll (usableInfo n).totalUsable (usableInfo n).usableIps =
        .preview (usableInfo n).totalUsable
          (sLit "使用 show_all_ips=true 参数查看完整列表")
          (if (usableInfo n).totalUsable > 10 then (usableInfo n).usableIps.take 10
           else (usableInfo n).usableIps) ∧
      (if (usableInfo n).totalUsable > 10 then (usableInfo n).usableIps.take 10
       else (usableInfo n).usableIps).length ≤ 10) ∧
    (∀ s r, buildReport s showAll n = some r →
      r.allIps = allUsableIps showAll (usableInfo n).totalUsable (usableInfo n).usableIps) := by
  refine ⟨?_, ?_, ?_, ?_⟩
  · intro hs hc
    unfold allUsableIps
    rw [if_neg (by rw [hs]; simp; omega), if_pos hs]
    refine ⟨rfl, ?_, ?_, ?_, ?_⟩
    · rw [List.length_take]
      exact min_le_left _ _
    · rw [List.length_take]
      exact min_le_left _ _
    · unfold lastSlice
      rw [List.length_drop]
      omega
    · intro c l hcon
      exact IpListing.noConfusion hcon
  · intro hs hc
    unfold allUsableIps
    rw [if_pos (by rw [hs]; simp; omega)]
  · intro hs
    unfold allUsableIps
    rw [if_neg (by rw [hs]; simp), if_neg (by rw [hs]; simp)]
    refine ⟨rfl, ?_⟩
    by_cases hgt : (usableInfo n).totalUsable > 10
    · rw [if_pos hgt, List.length_take]
      exact le_trans (min_le_left _ _) (by omega)
    · rw [if_neg hgt, usableIps_length hv]
      omega
  · intro s r hr
    unfold buildReport at hr
    dsimp only at hr
    split at hr
    · exact Option.noConfusion hr
    · split at hr
      · simp only [Option.some.injEq] at hr
        rw [← hr]
      · exact Option.noConfusion hr

/-- Witness for C6 at the block 192.168.1.0/30 without the full listing. -/
theorem claim_C6_witness :
    allUsableIps false (usableInfo ⟨3232235776, 30⟩).totalUsable
        (usableInfo ⟨3232235776, 30⟩).usableIps =
      .preview (usableInfo ⟨3232235776, 30⟩).totalUsable
        (sLit "使用 show_all_ips=true 参数查看完整列表")
        (if (usableInfo ⟨3232235776, 30⟩).totalUsable > 10 then
          (usableInfo ⟨3232235776, 30⟩).usableIps.take 10
         else (usableInfo ⟨3232235776, 30⟩).usableIps) :=
  ((claim_C6_listing_policy ⟨3232235776, 30⟩ (by decide) false).2.2.1 rfl).1

/-- C7 counterexample: for the block 10.0.0.0/16 the host list the code
builds at get_ip_range.py:78 (and the usable_ips string list derived from
it at line 81) has 65534 elements, far beyond the 1000-address display
threshold, so the computation does materialize the full usable-address
list; only the returned listing is sampled. -/
theorem claim_C7_counterexample :
    (v4Hosts ⟨167772160, 16⟩).length = 65534 ∧
    (usableInfo ⟨167772160, 16⟩).usableIps.length = 65534 ∧
    (usableInfo ⟨167772160, 16⟩).totalUsable = 65534 ∧
    1000 < 65534 := by
  have hv : Net4Valid ⟨167772160, 16⟩ := by decide
  have h1 : (v4Hosts ⟨167772160, 16⟩).length = 65534 := by
    rw [v4Hosts_length hv (by norm_num)]
    decide
  have h3 : (usableInfo ⟨167772160, 16⟩).totalUsable = 65534 := by
    unfold usableInfo
    rw [if_neg (by norm_num), if_neg (by norm_num)]
    dsimp only
    rw [v4NumAddresses_eq hv]
    decide
  have h2 : (usableInfo ⟨167772160, 16⟩).usableIps.length = 65534 := by
    rw [usableIps_length hv, h3]
  exact ⟨h1, h2, h3, by norm_num⟩

/-- C7 amended: above the 1000-address threshold the returned listing of
getIpRange never contains the full list (it holds the count, the first
50, the last 50 and a sample of at most 20 addresses), but the
computation still enumerates the full host list: the usable_ips list the
report is sliced from has exactly 2^(32-p) - 2 elements for every prefix
length p up to 30, so the per-request work grows with the block size
rather than being bounded by the sampling policy. -/
theorem claim_C7_internal_materialization (n : Net4) (hv : Net4Valid n)
    (hp : n.plen ≤ 30) (showAll : Bool) :
    (usableInfo n).usableIps.length = 2 ^ (32 - n.plen) - 2 ∧
    (usableInfo n).usableIps = (v4Hosts n).map v4ReprS ∧
    ((usableInfo n).totalUsable > 1000 → showAll = true →
      allUsableIps showAll (usableInfo n).totalUsable (usableInfo n).usableIps =
        .sampled (usableInfo n).totalUsable
          (sLit "网络过大，显示所有" ++ pyNatRepr (usableInfo n).totalUsable ++
            sLit "个IP可能影响性能")
          ((usableInfo n).usableIps.take 50)
          (lastSlice 50 (usableInfo n).usableIps)
          ((sliceStep (usableInfo n).usableIps
            (max 1 ((usableInfo n).totalUsable / 20))).take 20) ∧
      ((usableInfo n).usableIps.take 50).length ≤ 50 ∧
      (lastSlice 50 (usableInfo n).usableIps).length ≤ 50 ∧
      ((sliceStep (usableInfo n).usableIps
        (max 1 ((usableInfo n).totalUsable / 20))).take 20).length ≤ 20 ∧
      ∀ c l, allUsableIps showAll (usableInfo n).totalUsable (usableInfo n).usableIps ≠
        .full c l) := by
  have hips : (usableInfo n).usableIps = (v4Hosts n).map v4ReprS := by
    unfold usableInfo
    rw [if_neg (by omega), if_neg (by omega)]
  refine ⟨?_, hips, ?_⟩
  · rw [hips, List.length_map, v4Hosts_length hv hp]
  · intro hc hs
    unfold allUsableIps
    rw [if_neg (by rw [hs]; simp; omega), if_pos hs]
    refine ⟨rfl, ?_, ?_, ?_, ?_⟩
    · rw [List.length_take]
      exact min_le_left _ _
    · unfold lastSlice
      rw [List.length_drop]
      omega
    · rw [List.length_take]
      exact min_le_left _ _
    · intro c l hcon
      exact IpListing.noConfusion hcon

/-- Witness for the amended C7 at the block 10.0.0.0/16. -/
theorem claim_C7_witness :
    (usableInfo ⟨167772160, 16⟩).usableIps.length = 2 ^ (32 - 16) - 2 :=
  (claim_C7_internal_materialization ⟨167772160, 16⟩ (by decide) (by norm_num) true).1

/-- C8: validate_ip is total, producing one of the three document shapes
for every input, and follows the fallback order: the single address
attempt first (its document carries version, the six flags and the
decimal/binary/hex forms), then the network attempt, and last the invalid
document with the error suggestions. -/
theorem claim_C8_validate_total (s : List Char) :
    ((∃ d, validateIp s = .single d) ∨ (∃ d, validateIp s = .network d) ∨
      (∃ d, validateIp s = .invalid d)) ∧
    (∀ ip doc, pyIpAddress s = some ip → mkSingleDoc s ip = some doc →
      validateIp s = .single doc) ∧
    (∀ nw, (pyIpAddress s).bind (mkSingleDoc s) = none →
      pyIpNetwork s false = some nw → validateIp s = .network (mkNetVDoc s nw)) ∧
    ((pyIpAddress s).bind (mkSingleDoc s) = none → pyIpNetwork s false = none →
      validateIp s = .invalid ⟨s, invalidSuggestions⟩) ∧
    (∀ ip, ∃ b, mkSingleDoc s (.v4 ip) = some
      ⟨s, 4, v4IsPrivate ip, v4IsGlobal ip, v4IsReserved ip, v4IsMulticast ip,
       v4IsLoopback ip, v4IsLinkLocal ip, v4ReprS ip, b, v4ReprS ip⟩) := by
  refine ⟨?_, ?_, ?_, ?_, ?_⟩
  · unfold validateIp
    cases h1 : (pyIpAddress s).bind (mkSingleDoc s) with
    | some d => exact Or.inl ⟨d, rfl⟩
    | none =>
      cases h2 : pyIpNetwork s false with
      | some nw => exact Or.inr (Or.inl ⟨mkNetVDoc s nw, rfl⟩)
      | none => exact Or.inr (Or.inr ⟨⟨s, invalidSuggestions⟩, rfl⟩)
  · intro ip doc h1 h2
    unfold validateIp
    rw [h1]
    dsimp only [Option.some_bind]
    rw [h2]
  · intro nw h1 h2
    unfold validateIp
    rw [h1, h2]
  · intro h1 h2
    unfold validateIp
    rw [h1, h2]
  · intro ip
    obtain ⟨b, hb⟩ := binaryOctets_v4ReprS ip
    refine ⟨b, ?_⟩
    unfold mkSingleDoc
    dsimp only
    rw [hb]
    rfl

/-- Witness for C8 at the input 8.8.8.8. -/
theorem claim_C8_witness :
    validateIp (sLit "8.8.8.8") = .single
      ⟨sLit "8.8.8.8", 4, false, true, false, false, false, false, sLit "8.8.8.8",
       sLit "00001000.00001000.00001000.00001000", sLit "8.8.8.8"⟩ :=
  (claim_C8_validate_total (sLit "8.8.8.8")).2.1 (.v4 134744072)
    ⟨sLit "8.8.8.8", 4, false, true, false, false, false, false, sLit "8.8.8.8",
     sLit "00001000.00001000.00001000.00001000", sLit "8.8.8.8"⟩
    (by decide) (by decide)

/-- C10: every well formed IPv6 address string (one accepted by the
IPv6Address constructor) is reported by validate_ip as a valid network of
version 6 rather than as a single address: the single address branch
parses it but fails while rendering the binary form, so control falls to
the network branch, which accepts the address as a /128 network with a
single address.  IPv6 inputs are therefore not rejected. -/
theorem claim_C10_ipv6_fallthrough (s : List Char) (ip : Nat)
    (sc : Option (List Char)) (h : v6AddressParse s = some (ip, sc)) :
    pyIpAddress s = some (.v6 ip sc) ∧
    mkSingleDoc s (.v6 ip sc) = none ∧
    pyIpNetwork s false = some (.v6 ⟨ip, sc, 128⟩) ∧
    validateIp s = .network (mkNetVDoc s (.v6 ⟨ip, sc, 128⟩)) ∧
    (mkNetVDoc s (.v6 ⟨ip, sc, 128⟩)).version = 6 ∧
    v6NumAddresses ⟨ip, sc, 128⟩ = 1 ∧
    (∀ d, validateIp s ≠ .single d) := by
  have h1 := pyIpAddress_v6 h
  have h2 := mkSingleDoc_v6 s ip sc
  have h3 := pyIpNetwork_v6_of_address h
  have h4 : validateIp s = .network (mkNetVDoc s (.v6 ⟨ip, sc, 128⟩)) := by
    unfold validateIp
    rw [h1]
    dsimp only [Option.some_bind]
    rw [h2, h3]
  have h6 : v6NumAddresses ⟨ip, sc, 128⟩ = 1 := by
    unfold v6NumAddresses v6Broadcast v6Hostmask
    dsimp only
    rw [v6IpIntFromPlen_128, Nat.xor_self, lor_zero_eq]
    omega
  refine ⟨h1, h2, h3, h4, rfl, h6, ?_⟩
  intro d hcon
  rw [h4] at hcon
  exact ValidationDoc.noConfusion hcon

/-- Witness for C10 at the input ::1. -/
theorem claim_C10_witness :
    v6AddressParse (sLit "::1") = some (1, none) ∧
    validateIp (sLit "::1") = .network (mkNetVDoc (sLit "::1") (.v6 ⟨1, none, 128⟩)) :=
  ⟨by decide, (claim_C10_ipv6_fallthrough (sLit "::1") 1 none (by decide)).2.2.2.1⟩

/-! ## Grammar of accepted network strings -/

theorem slash_not_mem_pyNatRepr (n : Nat) : '/' ∉ pyNatRepr n :=
  not_mem_of_all_digits (pyNatRepr_digits n) (by decide)

theorem colon_not_mem_pyNatRepr (n : Nat) : ':' ∉ pyNatRepr n :=
  not_mem_of_all_digits (pyNatRepr_digits n) (by decide)

theorem mem_quadStr {x : Char} {a b c d : Nat} (h : x ∈ quadStr a b c d) :
    x.isDigit = true ∨ x = '.' := by
  unfold quadStr at h
  simp only [List.mem_append, List.mem_cons] at h
  rcases h with h | h | h | h | h | h | h
  · exact Or.inl (pyNatRepr_digits a x h)
  · exact Or.inr h
  · exact Or.inl (pyNatRepr_digits b x h)
  · exact Or.inr h
  · exact Or.inl (pyNatRepr_digits c x h)
  · exact Or.inr h
  · exact Or.inl (pyNatRepr_digits d x h)

theorem slash_not_mem_quadStr (a b c d : Nat) : '/' ∉ quadStr a b c d := by
  intro hm
  rcases mem_quadStr hm with h | h
  · exact absurd h (by decide)
  · exact absurd h (by decide)

theorem colon_not_mem_quadStr (a b c d : Nat) : ':' ∉ quadStr a b c d := by
  intro hm
  rcases mem_quadStr hm with h | h
  · exact absurd h (by decide)
  · exact absurd h (by decide)

theorem pySplit_dot_quadStr (a b c d : Nat) :
    pySplit '.' (quadStr a b c d) =
      [pyNatRepr a, pyNatRepr b, pyNatRepr c, pyNatRepr d] := by
  unfold quadStr
  rw [pySplit_sep_cons (dot_not_mem_pyNatRepr _),
    pySplit_sep_cons (dot_not_mem_pyNatRepr _),
    pySplit_sep_cons (dot_not_mem_pyNatRepr _),
    pySplit_of_not_mem (dot_not_mem_pyNatRepr _)]

theorem quadStr_ne_nil (a b c d : Nat) : quadStr a b c d ≠ [] := by
  unfold quadStr
  cases hq : pyNatRepr a with
  | nil => exact absurd hq (pyNatRepr_ne_nil a)
  | cons y ys => simp

theorem v4IntFromString_quadStr {a b c d : Nat} (ha : a ≤ 255) (hb : b ≤ 255)
    (hc : c ≤ 255) (hd : d ≤ 255) :
    v4IntFromString (quadStr a b c d) = some (quadVal a b c d) := by
  unfold v4IntFromString
  have hne : ¬((quadStr a b c d).isEmpty = true) := by
    cases hq : quadStr a b c d with
    | nil => exact absurd hq (quadStr_ne_nil a b c d)
    | cons y ys => simp
  rw [if_neg hne, pySplit_dot_quadStr]
  dsimp only
  rw [parseOctet_pyNatRepr ha, parseOctet_pyNatRepr hb, parseOctet_pyNatRepr hc,
    parseOctet_pyNatRepr hd]
  rfl

theorem v4AddressParse_quadStr {a b c d : Nat} (ha : a ≤ 255) (hb : b ≤ 255)
    (hc : c ≤ 255) (hd : d ≤ 255) :
    v4AddressParse (quadStr a b c d) = some (quadVal a b c d) := by
  unfold v4AddressParse
  rw [if_neg (slash_not_mem_quadStr a b c d)]
  exact v4IntFromString_quadStr ha hb hc hd

theorem v4MakeNetmaskStr_pyNatRepr_le {p : Nat} (h : p ≤ 32) :
    v4MakeNetmaskStr (pyNatRepr p) = some p := by
  unfold v4MakeNetmaskStr
  have h1 : v4PlenFromNumericStr (pyNatRepr p) = some p := by
    unfold v4PlenFromNumericStr
    rw [pyIsAsciiDigits_pyNatRepr, pyNatRepr_digitsVal]
    simp [h]
  rw [h1]

theorem v4IntFromString_pyNatRepr_none (p : Nat) :
    v4IntFromString (pyNatRepr p) = none := by
  unfold v4IntFromString
  have hne : ¬((pyNatRepr p).isEmpty = true) := by
    cases hq : pyNatRepr p with
    | nil => exact absurd hq (pyNatRepr_ne_nil p)
    | cons y ys => simp
  rw [if_neg hne, pySplit_of_not_mem (dot_not_mem_pyNatRepr p)]

theorem v4MakeNetmaskStr_pyNatRepr_gt {p : Nat} (h : 33 ≤ p) :
    v4MakeNetmaskStr (pyNatRepr p) = none := by
  unfold v4MakeNetmaskStr
  have h1 : v4PlenFromNumericStr (pyNatRepr p) = none := by
    unfold v4PlenFromNumericStr
    rw [pyIsAsciiDigits_pyNatRepr, pyNatRepr_digitsVal]
    simp [show ¬(p ≤ 32) by omega]
  rw [h1]
  unfold v4PlenFromIpStr
  rw [v4IntFromString_pyNatRepr_none]

theorem v4NetFinish_false (ip plen : Nat) :
    v4NetFinish ip plen false = some ⟨ip &&& v4IpIntFromPlen plen, plen⟩ := by
  unfold v4NetFinish
  dsimp only
  split
  · rfl
  · next h =>
    push_neg at h
    rw [h]

theorem land_v4AllOnes {ip : Nat} (h : ip < 2 ^ 32) :
    ip &&& v4IpIntFromPlen 32 = ip := by
  have h32 : v4IpIntFromPlen 32 = 2 ^ 32 - 1 := by decide
  rw [h32, land_two_pow_sub_one, Nat.mod_eq_of_lt h]

theorem quadVal_lt {a b c d : Nat} (ha : a ≤ 255) (hb : b ≤ 255) (hc : c ≤ 255)
    (hd : d ≤ 255) : quadVal a b c d < 2 ^ 32 := by
  unfold quadVal
  have h32 : (2 : Nat) ^ 32 = 4294967296 := by norm_num
  rw [h32]
  omega

/-- C3 counterexample: the parser does not fail on every input whose
prefix part is non-numeric.  For 10.0.0.0/255.255.255.0 the prefix part
255.255.255.0 is not a numeric integer (int() raises on it), yet
ip_network accepts the string, resolving the part as a dotted netmask to
the prefix length 24; the hostmask spelling 0.0.0.255 is accepted the
same way. -/
theorem claim_C3_counterexample :
    pySplit '/' (sLit "10.0.0.0/255.255.255.0") =
      [sLit "10.0.0.0", sLit "255.255.255.0"] ∧
    pyIsAsciiDigits (sLit "255.255.255.0") = false ∧
    pyIntParse (sLit "255.255.255.0") = none ∧
    pyIpNetwork (sLit "10.0.0.0/255.255.255.0") false = some (.v4 ⟨167772160, 24⟩) ∧
    pyIpNetwork (sLit "10.0.0.0/0.0.0.255") false = some (.v4 ⟨167772160, 24⟩) :=
  ⟨by decide, by decide, by decide, by decide, by decide⟩

/-- C3 amended: the accepted grammar is dotted quads with octets in
0..255, an optional slash part that may be a numeric prefix length in
0..32 (numeric lengths of 33 and beyond are rejected), a dotted netmask
or a dotted hostmask; a missing slash part defaults to prefix length 32;
malformed quads (octet out of range, wrong octet count) and alphabetic
prefix parts are rejected. -/
theorem claim_C3_accepted_grammar (a b c d p : Nat)
    (ha : a ≤ 255) (hb : b ≤ 255) (hc : c ≤ 255) (hd : d ≤ 255) :
    (p ≤ 32 → pyIpNetwork (quadStr a b c d ++ '/' :: pyNatRepr p) false =
        some (.v4 ⟨quadVal a b c d &&& v4IpIntFromPlen p, p⟩)) ∧
    pyIpNetwork (quadStr a b c d) false = some (.v4 ⟨quadVal a b c d, 32⟩) ∧
    (33 ≤ p → pyIpNetwork (quadStr a b c d ++ '/' :: pyNatRepr p) false = none) ∧
    pyIpNetwork (sLit "192.168.1.256/24") false = none ∧
    pyIpNetwork (sLit "1.2.3/24") false = none ∧
    pyIpNetwork (sLit "10.0.0.0/ab") false = none := by
  have hsplit : pySplit '/' (quadStr a b c d ++ '/' :: pyNatRepr p) =
      [quadStr a b c d, pyNatRepr p] := by
    rw [pySplit_sep_cons (slash_not_mem_quadStr a b c d),
      pySplit_of_not_mem (slash_not_mem_pyNatRepr p)]
  refine ⟨?_, ?_, ?_, by decide, by decide, by decide⟩
  · intro hp
    have h4 : v4NetworkParse (quadStr a b c d ++ '/' :: pyNatRepr p) false =
        some ⟨quadVal a b c d &&& v4IpIntFromPlen p, p⟩ := by
      unfold v4NetworkParse
      rw [hsplit]
      dsimp only
      rw [v4AddressParse_quadStr ha hb hc hd]
      dsimp only
      rw [v4MakeNetmaskStr_pyNatRepr_le hp]
      exact v4NetFinish_false _ _
    unfold pyIpNetwork
    rw [h4]
  · have h4 : v4NetworkParse (quadStr a b c d) false = some ⟨quadVal a b c d, 32⟩ := by
      unfold v4NetworkParse
      rw [pySplit_of_not_mem (slash_not_mem_quadStr a b c d)]
      dsimp only
      rw [v4AddressParse_quadStr ha hb hc hd]
      dsimp only
      rw [v4NetFinish_false, land_v4AllOnes (quadVal_lt ha hb hc hd)]
    unfold pyIpNetwork
    rw [h4]
  · intro hp
    have h4 : v4NetworkParse (quadStr a b c d ++ '/' :: pyNatRepr p) false = none := by
      unfold v4NetworkParse
      rw [hsplit]
      dsimp only
      rw [v4AddressParse_quadStr ha hb hc hd]
      dsimp only
      rw [v4MakeNetmaskStr_pyNatRepr_gt hp]
    have hnc : ':' ∉ quadStr a b c d ++ '/' :: pyNatRepr p := by
      intro hm
      simp only [List.mem_append, List.mem_cons] at hm
      rcases hm with hm | hm | hm
      · exact colon_not_mem_quadStr a b c d hm
      · exact absurd hm (by decide)
      · exact colon_not_mem_pyNatRepr p hm
    unfold pyIpNetwork
    rw [h4]
    dsimp only
    rw [v6NetworkParse_no_colon hnc]
    rfl

/-- Witness for the amended C3 on 10.0.0.1 with prefix parts 24, absent
and 33. -/
theorem claim_C3_witness :
    pyIpNetwork (quadStr 10 0 0 1 ++ '/' :: pyNatRepr 24) false =
      some (.v4 ⟨quadVal 10 0 0 1 &&& v4IpIntFromPlen 24, 24⟩) ∧
    pyIpNetwork (quadStr 10 0 0 1) false = some (.v4 ⟨quadVal 10 0 0 1, 32⟩) ∧
    pyIpNetwork (quadStr 10 0 0 1 ++ '/' :: pyNatRepr 33) false = none :=
  ⟨(claim_C3_accepted_grammar 10 0 0 1 24 (by decide) (by decide) (by decide)
      (by decide)).1 (by decide),
   (claim_C3_accepted_grammar 10 0 0 1 24 (by decide) (by decide) (by decide)
      (by decide)).2.1,
   (claim_C3_accepted_grammar 10 0 0 1 33 (by decide) (by decide) (by decide)
      (by decide)).2.2.1 (by decide)⟩

/-- C4 counterexample: the error kind does not distinguish InvalidFormat
from InvalidPrefix.  A malformed octet (192.168.1.256/24) and an
out-of-range prefix (10.0.0.0/33) produce error documents whose type
field is the same constant string ValueError (the exception class name,
get_ip_range.py line 225); only the free-form message text differs. -/
theorem claim_C4_counterexample :
    getIpRange (sLit "192.168.1.256/24") false =
      .error (mkErrorDoc (sLit "192.168.1.256/24")) ∧
    getIpRange (sLit "10.0.0.0/33") false =
      .error (mkErrorDoc (sLit "10.0.0.0/33")) ∧
    (mkErrorDoc (sLit "192.168.1.256/24")).errType = sLit "ValueError" ∧
    (mkErrorDoc (sLit "10.0.0.0/33")).errType = sLit "ValueError" :=
  ⟨rfl, rfl, rfl, rfl⟩

/-- C4 amended: every parse failure of the public operations is returned
as a structured error document, never a propagated exception: get_ip_range
returns the document carrying the constant kind ValueError, the original
input and the example valid formats, and get_ip_range_summary returns its
own document carrying the input and a help string (with no kind and no
examples); the kind never distinguishes format errors from prefix
errors. -/
theorem claim_C4_error_document (s : List Char) (b : Bool)
    (h : pyIpNetwork s false = none) :
    getIpRange s b = .error (mkErrorDoc s) ∧
    (mkErrorDoc s).errType = sLit "ValueError" ∧
    (mkErrorDoc s).input = s ∧
    (mkErrorDoc s).validFormats = [sLit "192.168.1.0/24", sLit "10.0.0.0/16",
      sLit "172.16.0.0/12", sLit "192.168.1.100/28"] ∧
    getIpRangeSummary s = .error ⟨s, summaryHelp⟩ ∧
    (∀ r, getIpRange s b ≠ .ok r) ∧
    (∀ r, getIpRangeSummary s ≠ .ok r) := by
  have h1 : getIpRange s b = .error (mkErrorDoc s) := by
    unfold getIpRange
    rw [h]
  have h2 : getIpRangeSummary s = .error ⟨s, summaryHelp⟩ := by
    unfold getIpRangeSummary
    rw [h]
  refine ⟨h1, rfl, rfl, rfl, h2, ?_, ?_⟩
  · intro r hcon
    rw [h1] at hcon
    exact Except.noConfusion hcon
  · intro r hcon
    rw [h2] at hcon
    exact Except.noConfusion hcon

/-- Witness for the amended C4 at the input 10.0.0.0/33. -/
theorem claim_C4_witness :
    pyIpNetwork (sLit "10.0.0.0/33") false = none ∧
    getIpRange (sLit "10.0.0.0/33") true =
      .error (mkErrorDoc (sLit "10.0.0.0/33")) :=
  ⟨by decide, (claim_C4_error_document (sLit "10.0.0.0/33") true (by decide)).1⟩
